import Mathlib

/-!
Shallow embedding of the evidence-triage repository: the local evidence
cache (lib/evidence-store.ts), the classification client (lib/case-api.ts),
and the API route handlers for evidence sync, tags, classify and search.
JavaScript truthiness and `||` defaulting are modelled explicitly; JS `Map`
objects are modelled as association lists with first-match lookup and
in-place replacement.
-/

namespace EvidenceTriage

/-! ### JavaScript-semantics helpers -/

/-- Truthiness of an optional string: `undefined` and `""` are falsy. -/
def jsTruthy : Option String → Bool
  | some s => s != ""
  | none => false

/-- JS `a || b` where `a` is an optional string and `b` a string. -/
def jsOrStr (a : Option String) (b : String) : String :=
  match a with
  | some s => if s = "" then b else s
  | none => b

/-- JS `a || b` on two optional strings. -/
def jsOrOpt (a b : Option String) : Option String :=
  if jsTruthy a then a else b

/-- JS `a || undefined` on an optional string. -/
def jsUndefOr (a : Option String) : Option String :=
  if jsTruthy a then a else none

/-- JS `a || b` where `a` is an optional number (`0` is falsy). -/
def jsOrQ (a : Option ℚ) (b : ℚ) : ℚ :=
  match a with
  | some q => if q = 0 then b else q
  | none => b

/-- JS `haystack.includes(needle)`: substring containment. -/
def jsIncludes (h n : String) : Bool :=
  decide (n.toList <:+: h.toList)

/-- JS `s.length` (as a character count). -/
def jsLength (s : String) : Nat := s.data.length

/-- JS `s.trim()`: strip leading and trailing whitespace. -/
def jsTrim (s : String) : String :=
  ⟨((s.data.dropWhile Char.isWhitespace).reverse.dropWhile Char.isWhitespace).reverse⟩

/-- JS `s.toLowerCase()`. -/
def jsToLower (s : String) : String := ⟨s.data.map Char.toLower⟩

/-- JS `s.substring(0, n)`. -/
def jsTake (s : String) (n : Nat) : String := ⟨s.data.take n⟩

/-- JS `s.startsWith(pre)`. -/
def jsStartsWith (s pre : String) : Bool := pre.data.isPrefixOf s.data

/-- Lexicographic order on character lists (JS string `<`). -/
def charListLt : List Char → List Char → Bool
  | _, [] => false
  | [], _ :: _ => true
  | a :: as, b :: bs => if a < b then true else if b < a then false else charListLt as bs

/-- JS string comparison `a <= b`. -/
def jsStrLe (a b : String) : Bool := ! charListLt b.data a.data

/-- JS `o?.toLowerCase().includes(q)`: `undefined` is falsy. -/
def optIncludesLower (o : Option String) (q : String) : Bool :=
  match o with
  | some s => jsIncludes (jsToLower s) q
  | none => false

/-! ### JS `Map` as an association list (unique keys in reachable states) -/

/-- `Map.get`: first binding for the key. -/
def jmGet {α : Type} (m : List (String × α)) (k : String) : Option α :=
  (m.find? (fun p => p.1 == k)).map Prod.snd

/-- `Map.set`: replace the binding in place, else append. -/
def jmSet {α : Type} : List (String × α) → String → α → List (String × α)
  | [], k, v => [(k, v)]
  | (k₀, v₀) :: m, k, v =>
      if k₀ = k then (k, v) :: m else (k₀, v₀) :: jmSet m k v

/-- `Map.delete`: remove the binding for the key. -/
def jmDelete {α : Type} : List (String × α) → String → List (String × α)
  | [], _ => []
  | (k₀, v₀) :: m, k =>
      if k₀ = k then m else (k₀, v₀) :: jmDelete m k

theorem jmGet_nil {α : Type} (k : String) : jmGet ([] : List (String × α)) k = none :=
  rfl

theorem jmGet_cons_self {α : Type} {k₀ k : String} (v₀ : α) (m : List (String × α))
    (h : k₀ = k) : jmGet ((k₀, v₀) :: m) k = some v₀ := by
  subst h
  unfold jmGet
  rw [List.find?_cons_of_pos _ (by simp)]
  rfl

theorem jmGet_cons_ne {α : Type} {k₀ k : String} (v₀ : α) (m : List (String × α))
    (h : ¬ k₀ = k) : jmGet ((k₀, v₀) :: m) k = jmGet m k := by
  unfold jmGet
  rw [List.find?_cons_of_neg _ (by simp [h])]

theorem jmGet_jmSet {α : Type} (m : List (String × α)) (k k' : String) (v : α) :
    jmGet (jmSet m k v) k' = if k = k' then some v else jmGet m k' := by
  induction m with
  | nil =>
      simp only [jmSet]
      by_cases h : k = k'
      · rw [if_pos h, jmGet_cons_self v [] h]
      · rw [if_neg h, jmGet_cons_ne v [] h, jmGet_nil]
  | cons p m ih =>
      obtain ⟨k₀, v₀⟩ := p
      by_cases h0 : k₀ = k
      · subst h0
        rw [show jmSet ((k₀, v₀) :: m) k₀ v = (k₀, v) :: m by simp [jmSet]]
        by_cases h : k₀ = k'
        · rw [if_pos h, jmGet_cons_self v m h]
        · rw [if_neg h, jmGet_cons_ne v m h, jmGet_cons_ne v₀ m h]
      · simp only [jmSet, if_neg h0]
        by_cases h : k₀ = k'
        · have hkk : ¬ k = k' := fun hc => h0 (h.trans hc.symm)
          rw [if_neg hkk, jmGet_cons_self v₀ (jmSet m k v) h, jmGet_cons_self v₀ m h]
        · rw [jmGet_cons_ne v₀ (jmSet m k v) h, jmGet_cons_ne v₀ m h, ih]

theorem jmGet_eq_none_of_not_mem {α : Type} (m : List (String × α)) (k : String)
    (h : k ∉ m.map Prod.fst) : jmGet m k = none := by
  unfold jmGet
  rw [List.find?_eq_none.mpr]
  · rfl
  · intro p hp hbeq
    exact h (List.mem_map.mpr ⟨p, hp, by simpa using hbeq⟩)

theorem jmGet_jmDelete_self {α : Type} (m : List (String × α)) (k : String)
    (hk : (m.map Prod.fst).Nodup) :
    jmGet (jmDelete m k) k = none := by
  induction m with
  | nil => rfl
  | cons p m ih =>
      obtain ⟨k₀, v₀⟩ := p
      simp only [List.map_cons, List.nodup_cons] at hk
      by_cases h0 : k₀ = k
      · subst h0
        rw [show jmDelete ((k₀, v₀) :: m) k₀ = m by simp [jmDelete]]
        exact jmGet_eq_none_of_not_mem m k₀ hk.1
      · simp only [jmDelete, if_neg h0]
        rw [jmGet_cons_ne _ _ h0]
        exact ih hk.2

theorem jmGet_mem {α : Type} {m : List (String × α)} {k : String} {v : α}
    (h : jmGet m k = some v) : (k, v) ∈ m := by
  unfold jmGet at h
  cases hfind : m.find? (fun p => p.1 == k) with
  | none => simp [hfind] at h
  | some q =>
      simp only [hfind, Option.map_some] at h
      have hq := List.find?_some hfind
      have hmem := List.mem_of_find?_eq_some hfind
      obtain ⟨qk, qv⟩ := q
      have hv : qv = v := by simpa using h
      have hk : qk = k := by simpa using hq
      subst hv
      subst hk
      exact hmem

/-! ### Data model (lib/types.ts): the Evidence Record -/

/-- `EvidenceItem` from lib/types.ts.  `category` and `ingestionStatus` are
plain strings, as in the runtime representation (TypeScript union types are
erased); optional fields are `Option`s; numbers are rationals. -/
structure EvidenceItem where
  id : String
  objectId : String
  filename : String
  contentType : String
  sizeBytes : Nat
  category : String
  tags : List String
  relevanceScore : ℚ
  extractedText : Option String
  summary : Option String
  dateDetected : Option String
  ingestionStatus : String
  createdAt : String
deriving DecidableEq, Repr

/-- The per-vault store `Map<string, EvidenceItem>` of lib/evidence-store.ts. -/
abbrev Store := List (String × EvidenceItem)

/-- `addEvidence`: `store.set(evidence.id, evidence)`. -/
def addEvidence (s : Store) (e : EvidenceItem) : Store := jmSet s e.id e

/-- `getEvidence`: `store.get(evidenceId)`. -/
def getEvidence (s : Store) (evidenceId : String) : Option EvidenceItem :=
  jmGet s evidenceId

/-- `deleteEvidence`: `store.delete(evidenceId)` (state part). -/
def deleteEvidence (s : Store) (evidenceId : String) : Store := jmDelete s evidenceId

/-- `getAllEvidence`: `Array.from(store.values())`. -/
def getAllEvidence (s : Store) : List EvidenceItem := s.map Prod.snd

/-- A `Partial<EvidenceItem>` as used by `updateEvidence` call sites: a field
is `some v` when the update object carries the key (possibly with value
`undefined`, hence the nested `Option` for optional fields). -/
structure EvidenceUpdate where
  category : Option String := none
  tags : Option (List String) := none
  relevanceScore : Option ℚ := none
  extractedText : Option (Option String) := none
  summary : Option (Option String) := none
  dateDetected : Option (Option String) := none
  ingestionStatus : Option String := none

/-- The spread `{ ...existing, ...updates }` in `updateEvidence`. -/
def applyUpdate (e : EvidenceItem) (u : EvidenceUpdate) : EvidenceItem :=
  { e with
    category := u.category.getD e.category
    tags := u.tags.getD e.tags
    relevanceScore := u.relevanceScore.getD e.relevanceScore
    extractedText := u.extractedText.getD e.extractedText
    summary := u.summary.getD e.summary
    dateDetected := u.dateDetected.getD e.dateDetected
    ingestionStatus := u.ingestionStatus.getD e.ingestionStatus }

/-- `updateEvidence`: merge fields into an existing record; no-op when the
id is absent.  Returns the new store and the updated record. -/
def updateEvidence (s : Store) (evidenceId : String) (u : EvidenceUpdate) :
    Store × Option EvidenceItem :=
  match jmGet s evidenceId with
  | some e =>
      let merged := applyUpdate e u
      (jmSet s evidenceId merged, some merged)
  | none => (s, none)

theorem applyUpdate_id (e : EvidenceItem) (u : EvidenceUpdate) :
    (applyUpdate e u).id = e.id := rfl

/-! ### JS `Set` de-duplication (first occurrence wins), for bulk tag edits -/

/-- Spine of `[...new Set(list)]`: keep the first occurrence of each string. -/
def jsSetAux (seen : List String) : List String → List String
  | [] => []
  | a :: l => if a ∈ seen then jsSetAux seen l else a :: jsSetAux (a :: seen) l

/-- `[...new Set(list)]`. -/
def jsSetDedup (l : List String) : List String := jsSetAux [] l

theorem jsSetAux_not_mem (l : List String) :
    ∀ seen a, a ∈ seen → a ∉ jsSetAux seen l := by
  induction l with
  | nil => intro seen a _ h; simp [jsSetAux] at h
  | cons b l ih =>
      intro seen a ha
      by_cases hb : b ∈ seen
      · simpa [jsSetAux, hb] using ih seen a ha
      · simp only [jsSetAux, if_neg hb, List.mem_cons, not_or]
        constructor
        · intro hab; exact hb (hab ▸ ha)
        · exact ih (b :: seen) a (List.mem_cons_of_mem b ha)

theorem jsSetAux_nodup (l : List String) : ∀ seen, (jsSetAux seen l).Nodup := by
  induction l with
  | nil => intro seen; simp [jsSetAux]
  | cons b l ih =>
      intro seen
      by_cases hb : b ∈ seen
      · simpa [jsSetAux, hb] using ih seen
      · simp only [jsSetAux, if_neg hb, List.nodup_cons]
        exact ⟨jsSetAux_not_mem l (b :: seen) b (List.mem_cons_self b seen), ih (b :: seen)⟩

theorem jsSetDedup_nodup (l : List String) : (jsSetDedup l).Nodup :=
  jsSetAux_nodup l []

/-! ### Tag route handlers (app/api/.../tags/route.ts) and bulk tag edit -/

inductive TagsResp where
  | badRequest
  | notFound
  | ok (evidence : Option EvidenceItem)
deriving DecidableEq, Repr

/-- `PUT /vaults/{cid}/evidence/{id}/tags`: replace the tag set with the
request body's array, verbatim.  `tags = none` models a non-array body. -/
def putTagsHandler (s : Store) (evidenceId : String) (tags : Option (List String)) :
    Store × TagsResp :=
  match tags with
  | none => (s, .badRequest)
  | some ts =>
      match getEvidence s evidenceId with
      | none => (s, .notFound)
      | some _ =>
          let r := updateEvidence s evidenceId { tags := some ts }
          (r.1, .ok r.2)

/-- `POST /vaults/{cid}/evidence/{id}/tags`: add one tag unless present.
`tag = none` models a non-string body field; `some ""` is falsy. -/
def addTagHandler (s : Store) (evidenceId : String) (tag : Option String) :
    Store × TagsResp :=
  if jsTruthy tag = false then (s, .badRequest)
  else
    let t := tag.getD ""
    match getEvidence s evidenceId with
    | none => (s, .notFound)
    | some ev =>
        let newTags := if t ∈ ev.tags then ev.tags else ev.tags ++ [t]
        let r := updateEvidence s evidenceId { tags := some newTags }
        (r.1, .ok r.2)

/-- `DELETE /vaults/{cid}/evidence/{id}/tags?tag=name`: remove one tag. -/
def removeTagHandler (s : Store) (evidenceId : String) (tag : Option String) :
    Store × TagsResp :=
  if jsTruthy tag = false then (s, .badRequest)
  else
    let t := tag.getD ""
    match getEvidence s evidenceId with
    | none => (s, .notFound)
    | some ev =>
        let newTags := ev.tags.filter (fun x => x != t)
        let r := updateEvidence s evidenceId { tags := some newTags }
        (r.1, .ok r.2)

/-- One id's worth of `updateBulkTags`: drop `tagsToRemove`, append
`tagsToAdd`, de-duplicate via `new Set`; a missing id is skipped. -/
def bulkTagStep (tagsToAdd tagsToRemove : List String) (s₁ : Store) (i : String) :
    Store :=
  match jmGet s₁ i with
  | some it =>
      jmSet s₁ i
        { it with
          tags := jsSetDedup
            ((it.tags.filter (fun t => ! tagsToRemove.contains t)) ++ tagsToAdd) }
  | none => s₁

/-- `updateBulkTags` from lib/evidence-store.ts. -/
def updateBulkTags (s : Store) (evidenceIds : List String)
    (tagsToAdd tagsToRemove : List String) : Store :=
  evidenceIds.foldl (bulkTagStep tagsToAdd tagsToRemove) s

/-! ### Vault objects and `syncEvidenceFromVault` (app/api/vaults/[vaultId]/evidence/route.ts) -/

/-- The `et_`-prefixed classification metadata, possibly nested under
`metadata` in a vault object. -/
structure VaultMeta where
  et_category : Option String := none
  et_tags : Option String := none
  et_summary : Option String := none
  et_date_detected : Option String := none
  et_relevance_score : Option ℚ := none
deriving DecidableEq, Repr

/-- `VaultObject` from lib/case-api.ts: one remote object of the vault's
object list, with optional nested and top-level `et_` metadata. -/
structure VaultObject where
  id : String
  filename : String
  contentType : String
  sizeBytes : Nat
  ingestionStatus : String
  metadata : Option VaultMeta := none
  et_category : Option String := none
  et_tags : Option String := none
  et_summary : Option String := none
  et_date_detected : Option String := none
  et_relevance_score : Option ℚ := none
  createdAt : String
deriving DecidableEq, Repr

/-- JS `a || b` on optional numbers (`0` is falsy). -/
def jsOrOptQ (a b : Option ℚ) : Option ℚ :=
  match a with
  | some q => if q = 0 then b else a
  | none => b

/-- `const meta = obj.metadata || obj; meta.et_category || obj.et_category`. -/
def objEtCategory (o : VaultObject) : Option String :=
  match o.metadata with
  | some m => jsOrOpt m.et_category o.et_category
  | none => jsOrOpt o.et_category o.et_category

/-- `meta.et_tags || obj.et_tags` with the same metadata fallback. -/
def objEtTags (o : VaultObject) : Option String :=
  match o.metadata with
  | some m => jsOrOpt m.et_tags o.et_tags
  | none => jsOrOpt o.et_tags o.et_tags

/-- `meta.et_summary || obj.et_summary` with the same metadata fallback. -/
def objEtSummary (o : VaultObject) : Option String :=
  match o.metadata with
  | some m => jsOrOpt m.et_summary o.et_summary
  | none => jsOrOpt o.et_summary o.et_summary

/-- `meta.et_date_detected || obj.et_date_detected`. -/
def objEtDate (o : VaultObject) : Option String :=
  match o.metadata with
  | some m => jsOrOpt m.et_date_detected o.et_date_detected
  | none => jsOrOpt o.et_date_detected o.et_date_detected

/-- `meta.et_relevance_score || obj.et_relevance_score`. -/
def objEtScoreRaw (o : VaultObject) : Option ℚ :=
  match o.metadata with
  | some m => jsOrOptQ m.et_relevance_score o.et_relevance_score
  | none => jsOrOptQ o.et_relevance_score o.et_relevance_score

/-- `const hasClassification = !!etCategory`. -/
def objHasClassification (o : VaultObject) : Bool := jsTruthy (objEtCategory o)

/-- The `classificationData` object built during sync (its
`ingestionStatus: 'completed'` member is applied at the use sites). -/
structure ClsData where
  category : String
  tags : List String
  summary : Option String
  dateDetected : Option String
  relevanceScore : ℚ
deriving DecidableEq, Repr

/-- `classificationData`: present iff the object carries `et_category`.
`parseTags` stands for `JSON.parse` applied to the stored tag string. -/
def mkClassificationData (parseTags : String → List String) (o : VaultObject) :
    Option ClsData :=
  if objHasClassification o then
    some
      { category := jsOrStr (objEtCategory o) "other"
        tags := if jsTruthy (objEtTags o) then parseTags ((objEtTags o).getD "") else []
        summary := jsUndefOr (objEtSummary o)
        dateDetected := jsUndefOr (objEtDate o)
        relevanceScore := jsOrQ (objEtScoreRaw o) 0 }
  else none

/-- The update object `classificationData` passed to `updateEvidence`
(includes `ingestionStatus: 'completed'`). -/
def clsUpdate (c : ClsData) : EvidenceUpdate :=
  { category := some c.category
    tags := some c.tags
    summary := some c.summary
    dateDetected := some c.dateDetected
    relevanceScore := some c.relevanceScore
    ingestionStatus := some "completed" }

/-- The fresh evidence item synthesized for a vault object with no local
counterpart (`!existing` branch of the sync loop). -/
def freshFromVaultObject (o : VaultObject) (cd : Option ClsData) : EvidenceItem :=
  { id := o.id
    objectId := o.id
    filename := o.filename
    contentType := o.contentType
    sizeBytes := o.sizeBytes
    category := jsOrStr (cd.map (fun c => c.category)) "other"
    tags := (cd.map (fun c => c.tags)).getD []
    summary := cd.bind (fun c => c.summary)
    dateDetected := cd.bind (fun c => c.dateDetected)
    relevanceScore := jsOrQ (cd.map (fun c => c.relevanceScore)) 0
    extractedText := none
    ingestionStatus := if cd.isSome then "completed" else o.ingestionStatus
    createdAt := o.createdAt }

/-- `const localHasClassification = existing.category !== 'other' ||
existing.tags.length > 0 || existing.summary`. -/
def localHasClassification (e : EvidenceItem) : Bool :=
  e.category != "other" || !e.tags.isEmpty || jsTruthy e.summary

/-- One record's contribution to the lookup map: index it under its
`objectId` (when truthy) and then under its `id`. -/
def existingStep (m : List (String × EvidenceItem)) (e : EvidenceItem) :
    List (String × EvidenceItem) :=
  jmSet (if e.objectId != "" then jmSet m e.objectId e else m) e.id e

/-- The lookup map `existingByObjectId`, built once before the sync loop. -/
def existingByObjectId (s : Store) : List (String × EvidenceItem) :=
  (getAllEvidence s).foldl existingStep []

/-- One iteration of the sync loop body, for one vault object. -/
def syncStep (parseTags : String → List String)
    (existing : List (String × EvidenceItem)) (s : Store) (o : VaultObject) : Store :=
  let cd := mkClassificationData parseTags o
  match jmGet existing o.id with
  | none => addEvidence s (freshFromVaultObject o cd)
  | some ex =>
      match cd, localHasClassification ex with
      | some c, false => (updateEvidence s ex.id (clsUpdate c)).1
      | _, _ =>
          if ex.ingestionStatus != o.ingestionStatus && ex.ingestionStatus != "completed" then
            (updateEvidence s ex.id { ingestionStatus := some o.ingestionStatus }).1
          else s

/-- `syncEvidenceFromVault`: reconcile the local cache against the remote
object list (the lookup map is computed once, before the loop). -/
def syncEvidenceFromVault (parseTags : String → List String) (s : Store)
    (objects : List VaultObject) : Store :=
  objects.foldl (syncStep parseTags (existingByObjectId s)) s

/-! ### Map and store lemmas supporting the sync invariant -/

theorem jmSet_forall {α : Type} (Q : String × α → Prop) (m : List (String × α))
    (k : String) (v : α) (hm : ∀ p ∈ m, Q p) (hv : Q (k, v)) :
    ∀ p ∈ jmSet m k v, Q p := by
  induction m with
  | nil =>
      intro p hp
      simp only [jmSet, List.mem_singleton] at hp
      exact hp ▸ hv
  | cons q m ih =>
      obtain ⟨k₀, v₀⟩ := q
      intro p hp
      by_cases h0 : k₀ = k
      · simp only [jmSet, if_pos h0, List.mem_cons] at hp
        rcases hp with hp | hp
        · exact hp ▸ hv
        · exact hm p (List.mem_cons_of_mem _ hp)
      · simp only [jmSet, if_neg h0, List.mem_cons] at hp
        rcases hp with hp | hp
        · exact hp ▸ hm _ (List.mem_cons_self _ _)
        · exact ih (fun r hr => hm r (List.mem_cons_of_mem _ hr)) p hp

theorem jmSet_keys_mem {α : Type} (m : List (String × α)) (k : String) (v : α)
    (x : String) (hx : x ∈ (jmSet m k v).map Prod.fst) :
    x = k ∨ x ∈ m.map Prod.fst := by
  induction m with
  | nil =>
      simp only [jmSet, List.map_cons, List.map_nil, List.mem_singleton] at hx
      exact Or.inl hx
  | cons q m ih =>
      obtain ⟨k₀, v₀⟩ := q
      by_cases h0 : k₀ = k
      · simp only [jmSet, if_pos h0, List.map_cons, List.mem_cons] at hx
        rcases hx with hx | hx
        · exact Or.inl hx
        · exact Or.inr (List.mem_cons_of_mem _ hx)
      · simp only [jmSet, if_neg h0, List.map_cons, List.mem_cons] at hx
        rcases hx with hx | hx
        · exact Or.inr (by simp [hx])
        · rcases ih hx with hx | hx
          · exact Or.inl hx
          · exact Or.inr (by simp [hx])

theorem jmSet_keys_nodup {α : Type} (m : List (String × α)) (k : String) (v : α)
    (h : (m.map Prod.fst).Nodup) : ((jmSet m k v).map Prod.fst).Nodup := by
  induction m with
  | nil => simp [jmSet]
  | cons q m ih =>
      obtain ⟨k₀, v₀⟩ := q
      simp only [List.map_cons, List.nodup_cons] at h
      by_cases h0 : k₀ = k
      · subst h0
        rw [show jmSet ((k₀, v₀) :: m) k₀ v = (k₀, v) :: m by simp [jmSet]]
        simp only [List.map_cons, List.nodup_cons]
        exact h
      · simp only [jmSet, if_neg h0, List.map_cons, List.nodup_cons]
        refine ⟨?_, ih h.2⟩
        intro hmem
        rcases jmSet_keys_mem m k v k₀ hmem with hk | hk
        · exact h0 hk
        · exact h.1 hk

theorem mem_unique_key {α : Type} (m : List (String × α)) (k : String) (a b : α)
    (h : (m.map Prod.fst).Nodup) (ha : (k, a) ∈ m) (hb : (k, b) ∈ m) : a = b := by
  induction m with
  | nil => simp at ha
  | cons q m ih =>
      obtain ⟨k₀, v₀⟩ := q
      simp only [List.map_cons, List.nodup_cons] at h
      rcases List.mem_cons.mp ha with ha0 | ha0 <;>
        rcases List.mem_cons.mp hb with hb0 | hb0
      · rw [Prod.mk.injEq] at ha0 hb0
        exact ha0.2.trans hb0.2.symm
      · rw [Prod.mk.injEq] at ha0
        exact absurd (List.mem_map.mpr ⟨(k, b), hb0, ha0.1⟩) h.1
      · rw [Prod.mk.injEq] at hb0
        exact absurd (List.mem_map.mpr ⟨(k, a), ha0, hb0.1⟩) h.1
      · exact ih h.2 ha0 hb0

/-- Reachable-state well-formedness of the evidence store: every binding's
value records the binding's key as its `id`, and keys are unique. -/
def StoreWF (s : Store) : Prop :=
  (∀ p ∈ s, p.2.id = p.1) ∧ (s.map Prod.fst).Nodup

theorem StoreWF_get_id {s : Store} {k : String} {e : EvidenceItem}
    (h : StoreWF s) (hg : jmGet s k = some e) : e.id = k :=
  h.1 (k, e) (jmGet_mem hg)

theorem StoreWF_jmSet {s : Store} {k : String} {v : EvidenceItem}
    (h : StoreWF s) (hid : v.id = k) : StoreWF (jmSet s k v) :=
  ⟨jmSet_forall (fun p => p.2.id = p.1) s k v h.1 hid, jmSet_keys_nodup s k v h.2⟩

theorem value_eq_of_id {s : Store} {k : String} {e v : EvidenceItem}
    (h : StoreWF s) (hg : jmGet s k = some e) (hv : v ∈ getAllEvidence s)
    (hid : v.id = k) : v = e := by
  obtain ⟨p, hp, hpv⟩ := List.mem_map.mp hv
  have hp1 : p.1 = k := by
    have := h.1 p hp
    rw [hpv] at this
    exact this ▸ hid ▸ rfl
  have hkv : (k, v) ∈ s := by
    obtain ⟨p1, p2⟩ := p
    simp only at hpv hp1
    rw [hpv, hp1] at hp
    exact hp
  exact mem_unique_key s k v e h.2 hkv (jmGet_mem hg)

theorem updateEvidence_get_ne (s : Store) (i : String) (u : EvidenceUpdate)
    (k : String) (hne : ¬ i = k) :
    jmGet (updateEvidence s i u).1 k = jmGet s k := by
  unfold updateEvidence
  cases hg : jmGet s i with
  | none => rfl
  | some e => simp [jmGet_jmSet, hne]

theorem updateEvidence_WF (s : Store) (i : String) (u : EvidenceUpdate)
    (h : StoreWF s) : StoreWF (updateEvidence s i u).1 := by
  unfold updateEvidence
  cases hg : jmGet s i with
  | none => exact h
  | some e =>
      have hid : (applyUpdate e u).id = i := by
        rw [applyUpdate_id]
        exact StoreWF_get_id h hg
      exact StoreWF_jmSet h hid

/-! ### Facts about the `existingByObjectId` lookup map -/

theorem existingStep_get {m : List (String × EvidenceItem)} {e : EvidenceItem}
    {k : String} {v : EvidenceItem} (h : jmGet (existingStep m e) k = some v) :
    v = e ∨ jmGet m k = some v := by
  unfold existingStep at h
  rw [jmGet_jmSet] at h
  by_cases h1 : e.id = k
  · simp only [if_pos h1] at h
    exact Or.inl (Option.some.inj h).symm
  · simp only [if_neg h1] at h
    by_cases h2 : (e.objectId != "") = true
    · simp only [if_pos h2] at h
      rw [jmGet_jmSet] at h
      by_cases h3 : e.objectId = k
      · simp only [if_pos h3] at h
        exact Or.inl (Option.some.inj h).symm
      · simp only [if_neg h3] at h
        exact Or.inr h
    · simp only [if_neg h2] at h
      exact Or.inr h

theorem existingStep_isSome {m : List (String × EvidenceItem)} {e : EvidenceItem}
    {k : String} (h : (jmGet m k).isSome) : (jmGet (existingStep m e) k).isSome := by
  unfold existingStep
  rw [jmGet_jmSet]
  by_cases h1 : e.id = k
  · simp [h1]
  · simp only [if_neg h1]
    by_cases h2 : (e.objectId != "") = true
    · simp only [if_pos h2]
      rw [jmGet_jmSet]
      by_cases h3 : e.objectId = k
      · simp [h3]
      · simpa [h3] using h
    · simpa [h2] using h

theorem foldE_val_mem (S : List EvidenceItem) :
    ∀ (l : List EvidenceItem) (m : List (String × EvidenceItem)),
      (∀ k v, jmGet m k = some v → v ∈ S) → (∀ e ∈ l, e ∈ S) →
      ∀ k v, jmGet (l.foldl existingStep m) k = some v → v ∈ S := by
  intro l
  induction l with
  | nil => intro m hm _ k v hg; exact hm k v hg
  | cons a l ih =>
      intro m hm hl k v hg
      refine ih (existingStep m a) ?_ (fun e he => hl e (List.mem_cons_of_mem a he)) k v hg
      intro k₁ v₁ hg₁
      rcases existingStep_get hg₁ with hv | hv
      · exact hv ▸ hl a (List.mem_cons_self a l)
      · exact hm k₁ v₁ hv

theorem foldE_isSome_mono :
    ∀ (l : List EvidenceItem) (m : List (String × EvidenceItem)) (k : String),
      (jmGet m k).isSome → (jmGet (l.foldl existingStep m) k).isSome := by
  intro l
  induction l with
  | nil => intro m k h; exact h
  | cons a l ih => intro m k h; exact ih (existingStep m a) k (existingStep_isSome h)

theorem foldE_covers :
    ∀ (l : List EvidenceItem) (m : List (String × EvidenceItem)) (e : EvidenceItem),
      e ∈ l → (jmGet (l.foldl existingStep m) e.id).isSome := by
  intro l
  induction l with
  | nil => intro m e he; simp at he
  | cons a l ih =>
      intro m e he
      rcases List.mem_cons.mp he with he | he
      · subst he
        refine foldE_isSome_mono l (existingStep m e) e.id ?_
        unfold existingStep
        rw [jmGet_jmSet]
        simp
      · exact ih (existingStep m a) e he

theorem existingBy_val_mem {s : Store} {k : String} {v : EvidenceItem}
    (h : jmGet (existingByObjectId s) k = some v) : v ∈ getAllEvidence s := by
  refine foldE_val_mem (getAllEvidence s) (getAllEvidence s) [] ?_ (fun e he => he) k v h
  intro k₁ v₁ hg₁
  simp [jmGet_nil] at hg₁

theorem existingBy_covers {s : Store} {e : EvidenceItem}
    (h : e ∈ getAllEvidence s) : (jmGet (existingByObjectId s) e.id).isSome :=
  foldE_covers (getAllEvidence s) [] e h

/-! ### The sync loop never reverts a completed record -/

theorem syncStep_preserves
    (parseTags : String → List String) (s₀ : Store) (k : String) (e₀ : EvidenceItem)
    (h₀ : StoreWF s₀) (hg₀ : jmGet s₀ k = some e₀)
    (hc₀ : e₀.ingestionStatus = "completed") (o : VaultObject) (s : Store)
    (hwf : StoreWF s) (e₂ : EvidenceItem) (hg₂ : jmGet s k = some e₂)
    (hc₂ : e₂.ingestionStatus = "completed") :
    StoreWF (syncStep parseTags (existingByObjectId s₀) s o) ∧
      ∃ e₃, jmGet (syncStep parseTags (existingByObjectId s₀) s o) k = some e₃ ∧
        e₃.ingestionStatus = "completed" := by
  unfold syncStep
  cases hE : jmGet (existingByObjectId s₀) o.id with
  | none =>
      have hid₀ : e₀.id = k := StoreWF_get_id h₀ hg₀
      have hmem₀ : e₀ ∈ getAllEvidence s₀ :=
        List.mem_map.mpr ⟨(k, e₀), jmGet_mem hg₀, rfl⟩
      have hsome : (jmGet (existingByObjectId s₀) e₀.id).isSome := existingBy_covers hmem₀
      have hok : ¬ o.id = k := by
        intro h
        rw [hid₀, ← h, hE] at hsome
        simp at hsome
      simp only []
      unfold addEvidence
      refine ⟨StoreWF_jmSet hwf rfl, e₂, ?_, hc₂⟩
      rw [show (freshFromVaultObject o (mkClassificationData parseTags o)).id = o.id from rfl]
      rw [jmGet_jmSet]
      simp only [if_neg hok]
      exact hg₂
  | some ex =>
      have hexmem : ex ∈ getAllEvidence s₀ := existingBy_val_mem hE
      by_cases hxk : ex.id = k
      · have hexe : ex = e₀ := value_eq_of_id h₀ hg₀ hexmem hxk
        have hxc : ex.ingestionStatus = "completed" := by rw [hexe]; exact hc₀
        have hfalse :
            (ex.ingestionStatus != o.ingestionStatus &&
              ex.ingestionStatus != "completed") = false := by
          simp [hxc]
        cases hcd : mkClassificationData parseTags o with
        | none =>
            cases hl : localHasClassification ex with
            | false =>
                simp only [hl, hfalse, Bool.false_eq_true, if_false]
                exact ⟨hwf, e₂, hg₂, hc₂⟩
            | true =>
                simp only [hl, hfalse, Bool.false_eq_true, if_false]
                exact ⟨hwf, e₂, hg₂, hc₂⟩
        | some c =>
            cases hl : localHasClassification ex with
            | false =>
                simp only [hl]
                rw [hxk]
                unfold updateEvidence
                rw [hg₂]
                simp only []
                constructor
                · exact StoreWF_jmSet hwf
                    (by rw [applyUpdate_id]; exact StoreWF_get_id hwf hg₂)
                · refine ⟨applyUpdate e₂ (clsUpdate c), ?_, ?_⟩
                  · rw [jmGet_jmSet]; simp
                  · simp [applyUpdate, clsUpdate]
            | true =>
                simp only [hl, hfalse, Bool.false_eq_true, if_false]
                exact ⟨hwf, e₂, hg₂, hc₂⟩
      · have hupd : ∀ u, StoreWF (updateEvidence s ex.id u).1 ∧
            ∃ e₃, jmGet (updateEvidence s ex.id u).1 k = some e₃ ∧
              e₃.ingestionStatus = "completed" := by
          intro u
          refine ⟨updateEvidence_WF s ex.id u hwf, e₂, ?_, hc₂⟩
          rw [updateEvidence_get_ne s ex.id u k hxk]
          exact hg₂
        have helse : StoreWF
              (if (ex.ingestionStatus != o.ingestionStatus &&
                  ex.ingestionStatus != "completed") = true then
                (updateEvidence s ex.id { ingestionStatus := some o.ingestionStatus }).1
              else s) ∧
            ∃ e₃, jmGet
                (if (ex.ingestionStatus != o.ingestionStatus &&
                    ex.ingestionStatus != "completed") = true then
                  (updateEvidence s ex.id { ingestionStatus := some o.ingestionStatus }).1
                else s) k = some e₃ ∧ e₃.ingestionStatus = "completed" := by
          by_cases hif : (ex.ingestionStatus != o.ingestionStatus &&
              ex.ingestionStatus != "completed") = true
          · simp only [hif, if_true]
            exact hupd _
          · simp only [Bool.not_eq_true] at hif
            simp only [hif, Bool.false_eq_true, if_false]
            exact ⟨hwf, e₂, hg₂, hc₂⟩
        cases hcd : mkClassificationData parseTags o with
        | none =>
            cases hl : localHasClassification ex with
            | false => simp only [hl]; exact helse
            | true => simp only [hl]; exact helse
        | some c =>
            cases hl : localHasClassification ex with
            | false => simp only [hl]; exact hupd _
            | true => simp only [hl]; exact helse

/-- C1: for every locally cached record with `ingestionStatus = "completed"`,
running `syncEvidenceFromVault` never changes that record's status back to
`"processing"` or `"pending"`: whatever the remote object list reports, the
record's status after the sync is still `"completed"`. -/
theorem claim1_sync_never_reverts_completed
    (parseTags : String → List String) (s : Store) (objects : List VaultObject)
    (k : String) (e : EvidenceItem)
    (hwf_ids : ∀ p ∈ s, p.2.id = p.1)
    (hwf_keys : (s.map Prod.fst).Nodup)
    (hget : jmGet s k = some e)
    (hcompleted : e.ingestionStatus = "completed") :
    ∃ e₂, jmGet (syncEvidenceFromVault parseTags s objects) k = some e₂ ∧
      e₂.ingestionStatus = "completed" ∧
      e₂.ingestionStatus ≠ "processing" ∧ e₂.ingestionStatus ≠ "pending" := by
  have main : ∀ (objs : List VaultObject) (s₂ : Store), StoreWF s₂ →
      (∃ e₂, jmGet s₂ k = some e₂ ∧ e₂.ingestionStatus = "completed") →
      StoreWF (objs.foldl (syncStep parseTags (existingByObjectId s)) s₂) ∧
        ∃ e₃, jmGet (objs.foldl (syncStep parseTags (existingByObjectId s)) s₂) k
            = some e₃ ∧ e₃.ingestionStatus = "completed" := by
    intro objs
    induction objs with
    | nil => intro s₂ hwf h; exact ⟨hwf, h⟩
    | cons o objs ih =>
        intro s₂ hwf h
        obtain ⟨e₂, hg₂, hc₂⟩ := h
        have step := syncStep_preserves parseTags s k e ⟨hwf_ids, hwf_keys⟩ hget
          hcompleted o s₂ hwf e₂ hg₂ hc₂
        exact ih _ step.1 step.2
  obtain ⟨-, e₃, hg₃, hc₃⟩ :=
    main objects s ⟨hwf_ids, hwf_keys⟩ ⟨e, hget, hcompleted⟩
  exact ⟨e₃, hg₃, hc₃, by rw [hc₃]; decide, by rw [hc₃]; decide⟩

/-! ### Concrete sample data for witnesses and counterexamples -/

/-- A completed, classified local record. -/
def sampleCompleted : EvidenceItem :=
  { id := "obj-1"
    objectId := "obj-1"
    filename := "contract_v2.pdf"
    contentType := "application/pdf"
    sizeBytes := 2048
    category := "contract"
    tags := ["key evidence"]
    relevanceScore := 80
    extractedText := none
    summary := some "An agreement between the parties."
    dateDetected := none
    ingestionStatus := "completed"
    createdAt := "2024-01-01T00:00:00.000Z" }

/-- A remote vault object for the same id that lags behind, still
reporting `processing` and carrying no classification metadata. -/
def sampleRemoteProcessing : VaultObject :=
  { id := "obj-1"
    filename := "contract_v2.pdf"
    contentType := "application/pdf"
    sizeBytes := 2048
    ingestionStatus := "processing"
    createdAt := "2024-01-01T00:00:00.000Z" }

/-- A freshly uploaded record with no tags yet. -/
def sampleUntagged : EvidenceItem :=
  { id := "e1"
    objectId := "e1"
    filename := "photo_001.png"
    contentType := "image/png"
    sizeBytes := 512
    category := "other"
    tags := []
    relevanceScore := 0
    extractedText := none
    summary := none
    dateDetected := none
    ingestionStatus := "processing"
    createdAt := "2024-02-02T00:00:00.000Z" }

/-- Witness for C1 at a concrete input: a completed local record survives a
resync against a remote list that still reports `processing` for it. -/
theorem claim1_sync_never_reverts_completed_witness :
    ∃ e₂, jmGet (syncEvidenceFromVault (fun _ => []) [("obj-1", sampleCompleted)]
        [sampleRemoteProcessing]) "obj-1" = some e₂ ∧
      e₂.ingestionStatus = "completed" ∧
      e₂.ingestionStatus ≠ "processing" ∧ e₂.ingestionStatus ≠ "pending" :=
  claim1_sync_never_reverts_completed (fun _ => []) [("obj-1", sampleCompleted)]
    [sampleRemoteProcessing] "obj-1" sampleCompleted
    (by decide) (by decide) (by decide) (by decide)

/-! ### C2: de-duplication across the tag-editing operations -/

theorem bulkTagStep_isSome (add rem : List String) (s : Store) (i j : String)
    (h : (jmGet s j).isSome) : (jmGet (bulkTagStep add rem s i) j).isSome := by
  unfold bulkTagStep
  cases hg : jmGet s i with
  | none => exact h
  | some it =>
      rw [jmGet_jmSet]
      by_cases hij : i = j
      · simp [hij]
      · simpa [hij] using h

theorem bulkTagStep_nodup (add rem : List String) (s : Store) (i j : String)
    (h : ∃ it, jmGet s j = some it ∧ it.tags.Nodup) :
    ∃ it₂, jmGet (bulkTagStep add rem s i) j = some it₂ ∧ it₂.tags.Nodup := by
  obtain ⟨it, hit, hnd⟩ := h
  unfold bulkTagStep
  cases hg : jmGet s i with
  | none => exact ⟨it, hit, hnd⟩
  | some it₀ =>
      rw [jmGet_jmSet]
      by_cases hij : i = j
      · subst hij
        rw [if_pos rfl]
        exact ⟨_, rfl, jsSetDedup_nodup _⟩
      · exact ⟨it, by simpa [hij] using hit, hnd⟩

theorem bulkTagStep_self (add rem : List String) (s : Store) (i : String)
    (h : (jmGet s i).isSome) :
    ∃ it₂, jmGet (bulkTagStep add rem s i) i = some it₂ ∧ it₂.tags.Nodup := by
  unfold bulkTagStep
  cases hg : jmGet s i with
  | none => rw [hg] at h; simp at h
  | some it =>
      rw [jmGet_jmSet]
      rw [if_pos rfl]
      exact ⟨_, rfl, jsSetDedup_nodup _⟩

theorem bulkFold_isSome (add rem : List String) :
    ∀ (ids : List String) (s : Store) (j : String),
      (jmGet s j).isSome → (jmGet (ids.foldl (bulkTagStep add rem) s) j).isSome := by
  intro ids
  induction ids with
  | nil => intro s j h; exact h
  | cons a ids ih =>
      intro s j h
      exact ih (bulkTagStep add rem s a) j (bulkTagStep_isSome add rem s a j h)

theorem bulkFold_nodup (add rem : List String) :
    ∀ (ids : List String) (s : Store) (j : String),
      (∃ it, jmGet s j = some it ∧ it.tags.Nodup) →
      ∃ it₂, jmGet (ids.foldl (bulkTagStep add rem) s) j = some it₂ ∧ it₂.tags.Nodup := by
  intro ids
  induction ids with
  | nil => intro s j h; exact h
  | cons a ids ih =>
      intro s j h
      exact ih (bulkTagStep add rem s a) j (bulkTagStep_nodup add rem s a j h)

/-- C2 counterexample: `PUT /tags` with a duplicated array stores the
duplicates verbatim, so the resulting tag list is not duplicate-free. -/
theorem claim2_counterexample_put_keeps_duplicates :
    (getEvidence (putTagsHandler [("e1", sampleUntagged)] "e1"
        (some ["Smoking Gun", "Smoking Gun"])).1 "e1").map (fun e => e.tags)
      = some ["Smoking Gun", "Smoking Gun"] ∧
    ¬ (["Smoking Gun", "Smoking Gun"] : List String).Nodup := by
  constructor
  · decide
  · decide

/-- C2 amended: the bulk tag edit always yields a duplicate-free tag list,
and `POST` add-one-tag preserves duplicate-freedom (adding an existing tag
is a no-op and a new tag is appended exactly once); but `PUT` replace
stores the request's array verbatim, duplicates included. -/
theorem claim2_amended_tag_dedup :
    (∀ (s : Store) (ids add rem : List String) (i : String),
      i ∈ ids → (jmGet s i).isSome →
      ∃ it, jmGet (updateBulkTags s ids add rem) i = some it ∧ it.tags.Nodup)
    ∧ (∀ (s : Store) (i t : String) (ev : EvidenceItem),
      getEvidence s i = some ev → ev.tags.Nodup → t ≠ "" →
      ∃ ev₂, getEvidence (addTagHandler s i (some t)).1 i = some ev₂ ∧
        ev₂.tags.Nodup ∧
        (t ∈ ev.tags → ev₂.tags = ev.tags) ∧
        (t ∉ ev.tags → ev₂.tags = ev.tags ++ [t]))
    ∧ (∀ (s : Store) (i : String) (ts : List String) (ev : EvidenceItem),
      getEvidence s i = some ev →
      getEvidence (putTagsHandler s i (some ts)).1 i = some { ev with tags := ts }) := by
  refine ⟨?_, ?_, ?_⟩
  · intro s ids add rem i hmem hsome
    unfold updateBulkTags
    induction ids generalizing s with
    | nil => simp at hmem
    | cons a ids ih =>
        rcases List.mem_cons.mp hmem with h | h
        · subst h
          simp only [List.foldl_cons]
          exact bulkFold_nodup add rem ids (bulkTagStep add rem s i) i
            (bulkTagStep_self add rem s i hsome)
        · simp only [List.foldl_cons]
          exact ih (bulkTagStep add rem s a) h
            (bulkTagStep_isSome add rem s a i hsome)
  · intro s i t ev hget hnd ht
    unfold addTagHandler
    have htruthy : jsTruthy (some t) = true := by simpa [jsTruthy] using ht
    rw [htruthy]
    simp only [Bool.true_eq_false, if_false, Option.getD_some]
    unfold getEvidence at hget ⊢
    rw [hget]
    simp only []
    unfold updateEvidence
    rw [hget]
    simp only []
    rw [jmGet_jmSet]
    simp only [if_pos rfl]
    by_cases hmem : t ∈ ev.tags
    · refine ⟨_, rfl, ?_, fun _ => ?_, fun hn => absurd hmem hn⟩
      · simpa [applyUpdate, hmem] using hnd
      · simp [applyUpdate, hmem]
    · refine ⟨_, rfl, ?_, fun hmem₂ => absurd hmem₂ hmem, fun _ => ?_⟩
      · simp only [applyUpdate, if_neg hmem, Option.getD_some]
        simp [List.nodup_append, hnd, hmem]
      · simp [applyUpdate, hmem]
  · intro s i ts ev hget
    unfold putTagsHandler
    unfold getEvidence at hget ⊢
    rw [hget]
    simp only []
    unfold updateEvidence
    rw [hget]
    simp only []
    rw [jmGet_jmSet]
    simp only [if_pos rfl]
    rfl

/-- Witness for the amended C2 at concrete inputs. -/
theorem claim2_amended_tag_dedup_witness :
    (∃ it, jmGet (updateBulkTags [("e1", sampleUntagged)] ["e1"]
        ["Smoking Gun", "Smoking Gun"] []) "e1" = some it ∧ it.tags.Nodup)
    ∧ (∃ ev₂, getEvidence (addTagHandler [("e1", sampleUntagged)] "e1"
        (some "Smoking Gun")).1 "e1" = some ev₂ ∧ ev₂.tags.Nodup ∧
        ("Smoking Gun" ∈ sampleUntagged.tags → ev₂.tags = sampleUntagged.tags) ∧
        ("Smoking Gun" ∉ sampleUntagged.tags →
          ev₂.tags = sampleUntagged.tags ++ ["Smoking Gun"]))
    ∧ getEvidence (putTagsHandler [("e1", sampleUntagged)] "e1"
        (some ["a", "a"])).1 "e1" = some { sampleUntagged with tags := ["a", "a"] } := by
  refine ⟨?_, ?_, ?_⟩
  · exact claim2_amended_tag_dedup.1 [("e1", sampleUntagged)] ["e1"]
      ["Smoking Gun", "Smoking Gun"] [] "e1" (by decide) (by decide)
  · exact claim2_amended_tag_dedup.2.1 [("e1", sampleUntagged)] "e1" "Smoking Gun"
      sampleUntagged (by decide) (by decide) (by decide)
  · exact claim2_amended_tag_dedup.2.2 [("e1", sampleUntagged)] "e1" ["a", "a"]
      sampleUntagged (by decide)

/-! ### OCR wait loop (`waitForOCR` in the classify route) -/

/-- The OCR job status enum of `OCRJobResponse`. -/
inductive OCRStatus where
  | pending
  | processing
  | completed
  | failed
deriving DecidableEq, Repr

/-- The polling loop of `waitForOCR`, instrumented with the number of
status checks performed.  `statuses i` is what the i-th `getOCRStatus`
call reports; `textFetch = none` models `getOCRText` throwing (the loop
then returns `null`). -/
def waitForOCRGo (statuses : Nat → OCRStatus) (textFetch : Option String) :
    Nat → Nat → Option String × Nat
  | _, 0 => (none, 0)
  | i, fuel + 1 =>
      match statuses i with
      | .completed => (textFetch, 1)
      | .failed => (none, 1)
      | _ =>
          let r := waitForOCRGo statuses textFetch (i + 1) fuel
          (r.1, r.2 + 1)

/-- `waitForOCR(jobId, maxAttempts = 30)`: fixed 2-second interval polling
with an attempt cap; timing is abstracted away, only the check sequence is
modelled. -/
def waitForOCR (statuses : Nat → OCRStatus) (textFetch : Option String)
    (maxAttempts : Nat) : Option String × Nat :=
  waitForOCRGo statuses textFetch 0 maxAttempts

/-! ### Classification client (`classifyEvidence` in lib/case-api.ts) -/

/-- `ClassificationResult` from lib/types.ts. -/
structure ClassificationResult where
  category : String
  confidence : ℚ
  suggestedTags : List String
  summary : String
  dateDetected : Option String
  relevanceScore : ℚ
deriving DecidableEq, Repr

/-- The JSON object extracted from the language-model response, field by
field; `none` means the key is absent. -/
structure ParsedClassification where
  category : Option String := none
  confidence : Option ℚ := none
  suggestedTags : Option (List String) := none
  summary : Option String := none
  dateDetected : Option String := none
  relevanceScore : Option ℚ := none
deriving DecidableEq, Repr

/-- `tag.replace(/[_-]/g, ' ')`. -/
def cleanTag (t : String) : String :=
  ⟨t.data.map (fun c => if c = '_' ∨ c = '-' then ' ' else c)⟩

/-- The result-shaping tail of `classifyEvidence`: `parsed = some p` models
a response whose JSON block parsed to `p`; `parsed = none` models a
response with no JSON block or a JSON parse failure (the hard-coded
default is returned). -/
def classifyEvidenceModel (parsed : Option ParsedClassification) :
    ClassificationResult :=
  match parsed with
  | some p =>
      { category := jsOrStr p.category "other"
        confidence := jsOrQ p.confidence (1/2)
        suggestedTags := (p.suggestedTags.getD []).map cleanTag
        summary := jsOrStr p.summary ""
        dateDetected := jsUndefOr p.dateDetected
        relevanceScore := jsOrQ p.relevanceScore 50 }
  | none =>
      { category := "other"
        confidence := 1/2
        suggestedTags := []
        summary := "Unable to classify document"
        dateDetected := none
        relevanceScore := 50 }

/-! ### The classify route handler (POST .../evidence/[evidenceId]/classify) -/

/-- The part of `getObjectStatus`'s response the handler reads. -/
structure ObjStatusResp where
  ingestionStatus : String
  downloadUrl : Option String := none
deriving DecidableEq, Repr

/-- The remote collaborators as seen by one handler invocation; `none`
models the corresponding call throwing. -/
structure ClassifyEnv where
  listObjects : Option (List VaultObject)
  objectStatus : String → Option ObjStatusResp
  processOCR : String → Option String
  ocrStatuses : String → Nat → OCRStatus
  ocrTextFetch : String → Option String
  getObjectText : String → Option String
  llm : Option (Option ParsedClassification)

/-- `isImageFile` from lib/case-api.ts: `contentType.startsWith('image/')`. -/
def isImageFile (contentType : String) : Bool :=
  jsStartsWith contentType "image/"

/-- Steps 1–3 of the handler: resolve the record by id, then by object id
over all records, then from the remote object list (registering a fresh
pending record).  Returns the possibly grown store. -/
def resolveEvidence (env : ClassifyEnv) (s : Store) (evidenceId : String) :
    Store × Option EvidenceItem :=
  match getEvidence s evidenceId with
  | some ev => (s, some ev)
  | none =>
      match (getAllEvidence s).find?
          (fun e => e.objectId == evidenceId || e.id == evidenceId) with
      | some ev => (s, some ev)
      | none =>
          match env.listObjects with
          | none => (s, none)
          | some objs =>
              match objs.find? (fun o => o.id == evidenceId) with
              | none => (s, none)
              | some o =>
                  let ev : EvidenceItem :=
                    { id := o.id
                      objectId := o.id
                      filename := o.filename
                      contentType := o.contentType
                      sizeBytes := o.sizeBytes
                      category := "other"
                      tags := []
                      relevanceScore := 0
                      extractedText := none
                      summary := none
                      dateDetected := none
                      ingestionStatus := o.ingestionStatus
                      createdAt := o.createdAt }
                  (addEvidence s ev, some ev)

/-- The OCR block for images: second `getObjectStatus` call, `processOCR`,
`waitForOCR`; any failure (caught exceptions, missing download URL, OCR
text of trimmed length at most 20) leaves `text` empty. -/
def imageOCRText (env : ClassifyEnv) (objectId : String) : String :=
  match env.objectStatus objectId with
  | none => ""
  | some st =>
      match st.downloadUrl with
      | none => ""
      | some url =>
          match env.processOCR url with
          | none => ""
          | some jobId =>
              match (waitForOCR (env.ocrStatuses jobId) (env.ocrTextFetch jobId) 30).1 with
              | none => ""
              | some t => if 20 < jsLength (jsTrim t) then t else ""

/-- The fixed photo classification used when an image has no meaningful
OCR text. -/
def photoClassification (filename : String) : ClassificationResult :=
  { category := "photo"
    confidence := 95/100
    suggestedTags := ["image", "photograph", "visual evidence"]
    summary := "Photograph: " ++ filename
    dateDetected := none
    relevanceScore := 50 }

/-- The handler's HTTP outcome. -/
inductive ClassifyResp where
  | notFound
  | stillProcessing (status : String)
  | serverError
  | ok (evidence : Option EvidenceItem) (classification : ClassificationResult)
deriving DecidableEq, Repr

/-- The update object written back after classification: classification
fields, a 5000-character prefix of the text, and status `completed`. -/
def classifyUpdateOf (c : ClassificationResult) (text : String) : EvidenceUpdate :=
  { category := some c.category
    tags := some c.suggestedTags
    summary := some (some c.summary)
    dateDetected := some c.dateDetected
    relevanceScore := some c.relevanceScore
    extractedText := some (some (jsTake text 5000))
    ingestionStatus := some "completed" }

/-- The final `updateEvidence` call and 200 response of the handler. -/
def classifyFinish (s : Store) (ev : EvidenceItem) (c : ClassificationResult)
    (text : String) (llmCalled : Bool) : Store × ClassifyResp × Bool :=
  let r := updateEvidence s ev.id (classifyUpdateOf c text)
  (r.1, .ok r.2 c, llmCalled)

/-- The classify route handler.  The third component records whether the
Classification Service (the language model) was invoked. -/
def classifyHandler (env : ClassifyEnv) (s : Store) (evidenceId : String) :
    Store × ClassifyResp × Bool :=
  match resolveEvidence env s evidenceId with
  | (s₁, none) => (s₁, .notFound, false)
  | (s₁, some ev) =>
      match env.objectStatus ev.objectId with
      | none => (s₁, .serverError, false)
      | some st =>
          let isImage := isImageFile ev.contentType
          if isImage = false ∧ st.ingestionStatus ≠ "completed" ∧
              (st.ingestionStatus = "processing" ∨ st.ingestionStatus = "pending") then
            (s₁, .stillProcessing st.ingestionStatus, false)
          else
            let text :=
              if isImage then imageOCRText env ev.objectId
              else (env.getObjectText ev.objectId).getD ""
            if isImage = true ∧ (text = "" ∨ jsLength (jsTrim text) ≤ 20) then
              classifyFinish s₁ ev (photoClassification ev.filename) text false
            else
              match env.llm with
              | none => (s₁, .serverError, true)
              | some parsed =>
                  classifyFinish s₁ ev (classifyEvidenceModel parsed) text true

/-! ### C8: the OCR wait loop is bounded and total -/

theorem waitForOCRGo_count_le (statuses : Nat → OCRStatus) (tf : Option String) :
    ∀ (fuel i : Nat), (waitForOCRGo statuses tf i fuel).2 ≤ fuel := by
  intro fuel
  induction fuel with
  | zero => intro i; simp [waitForOCRGo]
  | succ f ih =>
      intro i
      unfold waitForOCRGo
      cases statuses i with
      | completed => simp
      | failed => simp
      | pending => simpa using Nat.succ_le_succ (ih (i + 1))
      | processing => simpa using Nat.succ_le_succ (ih (i + 1))

theorem waitForOCRGo_first_terminal (statuses : Nat → OCRStatus) (tf : Option String) :
    ∀ (k fuel i : Nat), k < fuel →
      (∀ j, j < k → statuses (i + j) ≠ .completed ∧ statuses (i + j) ≠ .failed) →
      (statuses (i + k) = .completed →
        waitForOCRGo statuses tf i fuel = (tf, k + 1)) ∧
      (statuses (i + k) = .failed →
        waitForOCRGo statuses tf i fuel = (none, k + 1)) := by
  intro k
  induction k with
  | zero =>
      intro fuel i hk _
      cases fuel with
      | zero => omega
      | succ f =>
          constructor
          · intro hc
            unfold waitForOCRGo
            rw [show statuses i = OCRStatus.completed from by simpa using hc]
          · intro hc
            unfold waitForOCRGo
            rw [show statuses i = OCRStatus.failed from by simpa using hc]
  | succ k ih =>
      intro fuel i hk hnon
      cases fuel with
      | zero => omega
      | succ f =>
          have h0 := hnon 0 (Nat.succ_pos k)
          rw [Nat.add_zero] at h0
          have hshift : ∀ j, j < k →
              statuses (i + 1 + j) ≠ .completed ∧ statuses (i + 1 + j) ≠ .failed := by
            intro j hj
            have := hnon (j + 1) (by omega)
            rwa [show i + (j + 1) = i + 1 + j by omega] at this
          have hrec := ih f (i + 1) (by omega) hshift
          have hidx : i + 1 + k = i + (k + 1) := by omega
          constructor
          · intro hc
            rw [← hidx] at hc
            have := hrec.1 hc
            unfold waitForOCRGo
            cases hst : statuses i with
            | completed => exact absurd hst h0.1
            | failed => exact absurd hst h0.2
            | pending => simp [this]
            | processing => simp [this]
          · intro hc
            rw [← hidx] at hc
            have := hrec.2 hc
            unfold waitForOCRGo
            cases hst : statuses i with
            | completed => exact absurd hst h0.1
            | failed => exact absurd hst h0.2
            | pending => simp [this]
            | processing => simp [this]

theorem waitForOCRGo_exhausted (statuses : Nat → OCRStatus) (tf : Option String) :
    ∀ (fuel i : Nat),
      (∀ j, j < fuel → statuses (i + j) ≠ .completed ∧ statuses (i + j) ≠ .failed) →
      waitForOCRGo statuses tf i fuel = (none, fuel) := by
  intro fuel
  induction fuel with
  | zero => intro i _; rfl
  | succ f ih =>
      intro i hnon
      have h0 := hnon 0 (Nat.succ_pos f)
      rw [Nat.add_zero] at h0
      have hshift : ∀ j, j < f →
          statuses (i + 1 + j) ≠ .completed ∧ statuses (i + 1 + j) ≠ .failed := by
        intro j hj
        have := hnon (j + 1) (by omega)
        rwa [show i + (j + 1) = i + 1 + j by omega] at this
      have hrec := ih (i + 1) hshift
      unfold waitForOCRGo
      cases hst : statuses i with
      | completed => exact absurd hst h0.1
      | failed => exact absurd hst h0.2
      | pending => simp [hrec]
      | processing => simp [hrec]

/-- C8: `waitForOCR` performs at most 30 status checks and always
terminates; it returns the fetched text when the first terminal check
reports `completed`, and `null` when that check reports `failed` or when
all 30 checks are non-terminal. -/
theorem claim8_waitForOCR_bounded_total (statuses : Nat → OCRStatus) (t : String) :
    ((waitForOCR statuses (some t) 30).2 ≤ 30)
    ∧ (∀ k, k < 30 → statuses k = .completed →
        (∀ j, j < k → statuses j ≠ .completed ∧ statuses j ≠ .failed) →
        waitForOCR statuses (some t) 30 = (some t, k + 1))
    ∧ (∀ k, k < 30 → statuses k = .failed →
        (∀ j, j < k → statuses j ≠ .completed ∧ statuses j ≠ .failed) →
        waitForOCR statuses (some t) 30 = (none, k + 1))
    ∧ ((∀ j, j < 30 → statuses j ≠ .completed ∧ statuses j ≠ .failed) →
        waitForOCR statuses (some t) 30 = (none, 30)) := by
  refine ⟨waitForOCRGo_count_le statuses (some t) 30 0, ?_, ?_, ?_⟩
  · intro k hk hc hnon
    have := waitForOCRGo_first_terminal statuses (some t) k 30 0 hk
      (by intro j hj; simpa using hnon j hj)
    exact this.1 (by simpa using hc)
  · intro k hk hc hnon
    have := waitForOCRGo_first_terminal statuses (some t) k 30 0 hk
      (by intro j hj; simpa using hnon j hj)
    exact this.2 (by simpa using hc)
  · intro hnon
    exact waitForOCRGo_exhausted statuses (some t) 30 0
      (by intro j hj; simpa using hnon j hj)

/-- A concrete status trace: three `processing` reports, then `completed`. -/
def sampleOcrTrace : Nat → OCRStatus :=
  fun i => if i < 3 then .processing else .completed

/-- Witness for C8 at a concrete input: with three `processing` checks and
then `completed`, the loop stops after 4 checks and returns the text. -/
theorem claim8_waitForOCR_bounded_total_witness :
    waitForOCR sampleOcrTrace (some "ocr text") 30 = (some "ocr text", 4) ∧
    (waitForOCR sampleOcrTrace (some "ocr text") 30).2 ≤ 30 :=
  ⟨(claim8_waitForOCR_bounded_total sampleOcrTrace "ocr text").2.1 3 (by decide)
      (by decide) (by decide),
    (claim8_waitForOCR_bounded_total sampleOcrTrace "ocr text").1⟩

/-! ### Reductions of the classify handler on its main paths -/

theorem classifyHandler_nonimage_success (env : ClassifyEnv) (s : Store)
    (evidenceId : String) (ev : EvidenceItem) (st : ObjStatusResp)
    (p : Option ParsedClassification)
    (hget : getEvidence s evidenceId = some ev)
    (hid : ev.id = evidenceId)
    (himg : isImageFile ev.contentType = false)
    (hst : env.objectStatus ev.objectId = some st)
    (hcomp : st.ingestionStatus = "completed")
    (hllm : env.llm = some p) :
    classifyHandler env s evidenceId =
      (jmSet s evidenceId (applyUpdate ev (classifyUpdateOf (classifyEvidenceModel p)
          ((env.getObjectText ev.objectId).getD ""))),
        .ok (some (applyUpdate ev (classifyUpdateOf (classifyEvidenceModel p)
          ((env.getObjectText ev.objectId).getD "")))) (classifyEvidenceModel p),
        true) := by
  unfold classifyHandler resolveEvidence
  rw [hget]
  simp only []
  rw [hst]
  simp only [himg]
  rw [if_neg (by intro h; exact h.2.1 hcomp)]
  simp only [Bool.false_eq_true, false_and, if_false]
  rw [hllm]
  simp only []
  unfold classifyFinish updateEvidence
  have hj : jmGet s ev.id = some ev := by rw [hid]; exact hget
  rw [hj]
  simp only []
  rw [hid]

theorem classifyHandler_image_photo (env : ClassifyEnv) (s : Store)
    (evidenceId : String) (ev : EvidenceItem) (st : ObjStatusResp)
    (hget : getEvidence s evidenceId = some ev)
    (hid : ev.id = evidenceId)
    (himg : isImageFile ev.contentType = true)
    (hst : env.objectStatus ev.objectId = some st)
    (htext : imageOCRText env ev.objectId = "") :
    classifyHandler env s evidenceId =
      (jmSet s evidenceId (applyUpdate ev
          (classifyUpdateOf (photoClassification ev.filename) "")),
        .ok (some (applyUpdate ev
          (classifyUpdateOf (photoClassification ev.filename) "")))
          (photoClassification ev.filename),
        false) := by
  unfold classifyHandler resolveEvidence
  rw [hget]
  simp only []
  rw [hst]
  simp only [himg]
  rw [if_neg (by intro h; simp at h)]
  simp only [if_true, htext]
  rw [if_pos ⟨by trivial, Or.inl (by trivial)⟩]
  unfold classifyFinish updateEvidence
  have hj : jmGet s ev.id = some ev := by rw [hid]; exact hget
  rw [hj]
  simp only []
  rw [hid]

/-! ### C5: classify status codes -/

/-- C5: on a non-image record whose remote status is `processing` or
`pending`, classify returns 400 with the remote status in a `status` field
and leaves the store untouched; it returns 404 when the record is absent
both locally and remotely; and on success (remote status `completed`, LLM
reachable) it returns 200 with the updated record and the raw
classification. -/
theorem claim5_classify_status_codes :
    (∀ (env : ClassifyEnv) (s : Store) (evidenceId : String) (ev : EvidenceItem)
        (st : ObjStatusResp),
      getEvidence s evidenceId = some ev →
      isImageFile ev.contentType = false →
      env.objectStatus ev.objectId = some st →
      (st.ingestionStatus = "processing" ∨ st.ingestionStatus = "pending") →
      classifyHandler env s evidenceId =
        (s, .stillProcessing st.ingestionStatus, false))
    ∧ (∀ (env : ClassifyEnv) (s : Store) (evidenceId : String)
        (objs : List VaultObject),
      getEvidence s evidenceId = none →
      (∀ e ∈ getAllEvidence s, e.objectId ≠ evidenceId ∧ e.id ≠ evidenceId) →
      env.listObjects = some objs →
      (∀ o ∈ objs, o.id ≠ evidenceId) →
      classifyHandler env s evidenceId = (s, .notFound, false))
    ∧ (∀ (env : ClassifyEnv) (s : Store) (evidenceId : String) (ev : EvidenceItem)
        (st : ObjStatusResp) (p : Option ParsedClassification),
      getEvidence s evidenceId = some ev →
      ev.id = evidenceId →
      isImageFile ev.contentType = false →
      env.objectStatus ev.objectId = some st →
      st.ingestionStatus = "completed" →
      env.llm = some p →
      classifyHandler env s evidenceId =
        (jmSet s evidenceId (applyUpdate ev (classifyUpdateOf (classifyEvidenceModel p)
            ((env.getObjectText ev.objectId).getD ""))),
          .ok (some (applyUpdate ev (classifyUpdateOf (classifyEvidenceModel p)
            ((env.getObjectText ev.objectId).getD "")))) (classifyEvidenceModel p),
          true)) := by
  refine ⟨?_, ?_, ?_⟩
  · intro env s evidenceId ev st hget himg hst hstat
    have hne : st.ingestionStatus ≠ "completed" := by
      rcases hstat with h | h <;> simp [h]
    unfold classifyHandler resolveEvidence
    rw [hget]
    simp only []
    rw [hst]
    simp only [himg]
    rw [if_pos ⟨by trivial, hne, hstat⟩]
  · intro env s evidenceId objs hget hnone hlist hobj
    unfold classifyHandler resolveEvidence
    rw [hget]
    simp only []
    have hfind : (getAllEvidence s).find?
        (fun e => e.objectId == evidenceId || e.id == evidenceId) = none := by
      rw [List.find?_eq_none]
      intro e he
      have h := hnone e he
      simp [h.1, h.2]
    rw [hfind]
    simp only []
    rw [hlist]
    simp only []
    have hfind2 : objs.find? (fun o => o.id == evidenceId) = none := by
      rw [List.find?_eq_none]
      intro o ho
      simpa using hobj o ho
    rw [hfind2]
  · intro env s evidenceId ev st p hget hid himg hst hcomp hllm
    exact classifyHandler_nonimage_success env s evidenceId ev st p
      hget hid himg hst hcomp hllm

/-- A pending PDF record awaiting classification. -/
def sampleDoc : EvidenceItem :=
  { id := "d1"
    objectId := "d1"
    filename := "contract_v2.pdf"
    contentType := "application/pdf"
    sizeBytes := 2048
    category := "other"
    tags := []
    relevanceScore := 0
    extractedText := none
    summary := none
    dateDetected := none
    ingestionStatus := "processing"
    createdAt := "2024-01-01T00:00:00.000Z" }

/-- An environment whose remote ingestion status is still `processing`. -/
def envProcessing : ClassifyEnv :=
  { listObjects := some []
    objectStatus := fun _ => some { ingestionStatus := "processing" }
    processOCR := fun _ => none
    ocrStatuses := fun _ _ => OCRStatus.failed
    ocrTextFetch := fun _ => none
    getObjectText := fun _ => none
    llm := none }

/-- A classification response claiming relevance score 150. -/
def sampleParsed150 : ParsedClassification :=
  { category := some "contract"
    confidence := some (9/10)
    suggestedTags := some ["agreement_copy", "signed"]
    summary := some "An agreement between the parties."
    dateDetected := none
    relevanceScore := some 150 }

/-- An environment with completed remote ingestion whose classification
response carries score 150. -/
def envCompleted150 : ClassifyEnv :=
  { listObjects := some []
    objectStatus := fun _ => some { ingestionStatus := "completed" }
    processOCR := fun _ => none
    ocrStatuses := fun _ _ => OCRStatus.failed
    ocrTextFetch := fun _ => none
    getObjectText := fun _ => some "This Agreement is entered into by the parties."
    llm := some (some sampleParsed150) }

/-- Witness for C5 at concrete inputs: a still-`processing` classify
returns 400 without touching the store, an id unknown locally and remotely
returns 404, and a completed one returns 200 with the updated record. -/
theorem claim5_classify_status_codes_witness :
    classifyHandler envProcessing [("d1", sampleDoc)] "d1"
      = ([("d1", sampleDoc)], .stillProcessing "processing", false)
    ∧ classifyHandler envProcessing [("obj-1", sampleCompleted)] "missing"
      = ([("obj-1", sampleCompleted)], .notFound, false)
    ∧ classifyHandler envCompleted150 [("d1", sampleDoc)] "d1"
      = (jmSet [("d1", sampleDoc)] "d1" (applyUpdate sampleDoc
          (classifyUpdateOf (classifyEvidenceModel (some sampleParsed150))
            ((envCompleted150.getObjectText "d1").getD ""))),
        .ok (some (applyUpdate sampleDoc
          (classifyUpdateOf (classifyEvidenceModel (some sampleParsed150))
            ((envCompleted150.getObjectText "d1").getD ""))))
          (classifyEvidenceModel (some sampleParsed150)),
        true) := by
  refine ⟨?_, ?_, ?_⟩
  · exact claim5_classify_status_codes.1 envProcessing [("d1", sampleDoc)] "d1"
      sampleDoc { ingestionStatus := "processing" }
      (by decide) (by decide) rfl (Or.inl rfl)
  · exact claim5_classify_status_codes.2.1 envProcessing
      [("obj-1", sampleCompleted)] "missing" []
      (by decide) (by decide) rfl (by intro o ho; simp at ho)
  · exact claim5_classify_status_codes.2.2 envCompleted150 [("d1", sampleDoc)] "d1"
      sampleDoc { ingestionStatus := "completed" } (some sampleParsed150)
      (by decide) (by decide) (by decide) rfl rfl rfl

/-! ### C4: images without meaningful OCR text become photos, no LLM call -/

/-- C4: for an image record whose OCR text trims to fewer than 20
characters, classify answers 200 with the fixed photo classification
(category `photo`, tags including `photograph`, confidence 0.95, relevance
score 50, placeholder summary) and never invokes the language model (the
third component of the handler result is `false`). -/
theorem claim4_image_no_text_is_photo (env : ClassifyEnv) (s : Store)
    (evidenceId : String) (ev : EvidenceItem) (st : ObjStatusResp)
    (url jobId t : String)
    (hget : getEvidence s evidenceId = some ev)
    (hid : ev.id = evidenceId)
    (himg : isImageFile ev.contentType = true)
    (hst : env.objectStatus ev.objectId = some st)
    (hurl : st.downloadUrl = some url)
    (hocr : env.processOCR url = some jobId)
    (htext : (waitForOCR (env.ocrStatuses jobId) (env.ocrTextFetch jobId) 30).1 = some t)
    (hshort : jsLength (jsTrim t) < 20) :
    classifyHandler env s evidenceId =
      (jmSet s evidenceId (applyUpdate ev
          (classifyUpdateOf (photoClassification ev.filename) "")),
        .ok (some (applyUpdate ev
          (classifyUpdateOf (photoClassification ev.filename) "")))
          (photoClassification ev.filename),
        false)
    ∧ (applyUpdate ev (classifyUpdateOf (photoClassification ev.filename) "")).category
        = "photo"
    ∧ (applyUpdate ev (classifyUpdateOf (photoClassification ev.filename) "")).tags
        = ["image", "photograph", "visual evidence"]
    ∧ "photograph" ∈
        (applyUpdate ev (classifyUpdateOf (photoClassification ev.filename) "")).tags
    ∧ (applyUpdate ev
        (classifyUpdateOf (photoClassification ev.filename) "")).relevanceScore = 50
    ∧ (photoClassification ev.filename).confidence = 95/100
    ∧ (photoClassification ev.filename).summary = "Photograph: " ++ ev.filename := by
  have hocrtext : imageOCRText env ev.objectId = "" := by
    unfold imageOCRText
    rw [hst]
    simp only []
    rw [hurl]
    simp only []
    rw [hocr]
    simp only []
    rw [htext]
    simp only []
    rw [if_neg (by omega)]
  refine ⟨classifyHandler_image_photo env s evidenceId ev st hget hid himg hst hocrtext,
    ?_, ?_, ?_, ?_, ?_, ?_⟩
  · rfl
  · rfl
  · simp [applyUpdate, classifyUpdateOf, photoClassification]
  · rfl
  · rfl
  · rfl

/-- An environment for an image whose OCR completes immediately with an
empty text. -/
def envImageEmptyOcr : ClassifyEnv :=
  { listObjects := some []
    objectStatus := fun _ => some
      { ingestionStatus := "processing", downloadUrl := some "https://dl/photo_001.png" }
    processOCR := fun _ => some "job-1"
    ocrStatuses := fun _ _ => OCRStatus.completed
    ocrTextFetch := fun _ => some ""
    getObjectText := fun _ => none
    llm := none }

/-- Witness for C4 at a concrete input: a `.png` whose OCR returns the
empty string is classified as a photo without any LLM call. -/
theorem claim4_image_no_text_is_photo_witness :
    classifyHandler envImageEmptyOcr [("e1", sampleUntagged)] "e1"
      = (jmSet [("e1", sampleUntagged)] "e1" (applyUpdate sampleUntagged
          (classifyUpdateOf (photoClassification sampleUntagged.filename) "")),
        .ok (some (applyUpdate sampleUntagged
          (classifyUpdateOf (photoClassification sampleUntagged.filename) "")))
          (photoClassification sampleUntagged.filename),
        false)
    ∧ (applyUpdate sampleUntagged
        (classifyUpdateOf (photoClassification sampleUntagged.filename) "")).category
        = "photo"
    ∧ "photograph" ∈ (applyUpdate sampleUntagged
        (classifyUpdateOf (photoClassification sampleUntagged.filename) "")).tags
    ∧ (applyUpdate sampleUntagged
        (classifyUpdateOf (photoClassification sampleUntagged.filename) "")).relevanceScore
        = 50 := by
  have h := claim4_image_no_text_is_photo envImageEmptyOcr [("e1", sampleUntagged)]
    "e1" sampleUntagged
    { ingestionStatus := "processing", downloadUrl := some "https://dl/photo_001.png" }
    "https://dl/photo_001.png" "job-1" ""
    (by decide) (by decide) (by decide) rfl rfl rfl (by decide) (by decide)
  exact ⟨h.1, h.2.1, h.2.2.2.1, h.2.2.2.2.1⟩

/-! ### C3: relevance scores are NOT clamped; only falsy values default to 50 -/

/-- C3 counterexample: a classification response claiming score 150 is
stored as 150, not clamped to 100 — on the full classify path the record
ends up with `relevanceScore = 150`. -/
theorem claim3_counterexample_150_not_clamped :
    ((getEvidence (classifyHandler envCompleted150 [("d1", sampleDoc)] "d1").1 "d1").map
        (fun e => e.relevanceScore)) = some 150
    ∧ (classifyEvidenceModel (some sampleParsed150)).relevanceScore = 150
    ∧ (150 : ℚ) ≠ 100 := by
  refine ⟨by decide, by decide, by decide⟩

/-- C3 amended: the stored relevance score is the response's score taken
verbatim whenever that score is a truthy (non-zero) number — out-of-range
values such as 150 are stored unchanged, with no clamping — and it
defaults to 50 exactly when the score field is absent or zero; a fully
unparseable response also yields 50. -/
theorem claim3_amended_relevance_no_clamping :
    (∀ (env : ClassifyEnv) (s : Store) (evidenceId : String) (ev : EvidenceItem)
        (st : ObjStatusResp) (p : Option ParsedClassification),
      getEvidence s evidenceId = some ev → ev.id = evidenceId →
      isImageFile ev.contentType = false →
      env.objectStatus ev.objectId = some st → st.ingestionStatus = "completed" →
      env.llm = some p →
      ∃ ev₂, getEvidence (classifyHandler env s evidenceId).1 evidenceId = some ev₂ ∧
        ev₂.relevanceScore = (classifyEvidenceModel p).relevanceScore)
    ∧ (∀ (p : ParsedClassification),
        (classifyEvidenceModel (some p)).relevanceScore = jsOrQ p.relevanceScore 50)
    ∧ (∀ q : ℚ, q ≠ 0 → jsOrQ (some q) 50 = q)
    ∧ jsOrQ none 50 = 50
    ∧ (classifyEvidenceModel none).relevanceScore = 50 := by
  refine ⟨?_, fun p => rfl, ?_, rfl, rfl⟩
  · intro env s evidenceId ev st p hget hid himg hst hcomp hllm
    rw [classifyHandler_nonimage_success env s evidenceId ev st p
      hget hid himg hst hcomp hllm]
    unfold getEvidence
    rw [jmGet_jmSet]
    simp only [if_pos rfl]
    exact ⟨_, rfl, rfl⟩
  · intro q hq
    simp [jsOrQ, hq]

/-- Witness for the amended C3 at concrete inputs. -/
theorem claim3_amended_relevance_no_clamping_witness :
    (∃ ev₂, getEvidence (classifyHandler envCompleted150
        [("d1", sampleDoc)] "d1").1 "d1" = some ev₂ ∧
      ev₂.relevanceScore
        = (classifyEvidenceModel (some sampleParsed150)).relevanceScore)
    ∧ (classifyEvidenceModel (some sampleParsed150)).relevanceScore
        = jsOrQ sampleParsed150.relevanceScore 50
    ∧ jsOrQ (some 150) 50 = 150 := by
  refine ⟨?_, ?_, ?_⟩
  · exact claim3_amended_relevance_no_clamping.1 envCompleted150 [("d1", sampleDoc)]
      "d1" sampleDoc { ingestionStatus := "completed" } (some sampleParsed150)
      (by decide) (by decide) (by decide) rfl rfl rfl
  · exact claim3_amended_relevance_no_clamping.2.1 sampleParsed150
  · exact claim3_amended_relevance_no_clamping.2.2.1 150 (by decide)

/-! ### C9: store round-trips -/

/-- C9: `addEvidence` followed by `getEvidence` on the record's id returns
the record just put; `deleteEvidence` followed by `getEvidence` on the
deleted id returns `undefined` (`none`). -/
theorem claim9_put_get_delete_roundtrip (s : Store) (e : EvidenceItem) (i : String)
    (h : (s.map Prod.fst).Nodup) :
    getEvidence (addEvidence s e) e.id = some e ∧
    getEvidence (deleteEvidence s i) i = none := by
  constructor
  · unfold getEvidence addEvidence
    rw [jmGet_jmSet]
    simp
  · exact jmGet_jmDelete_self s i h

/-- Witness for C9 at a concrete store. -/
theorem claim9_put_get_delete_roundtrip_witness :
    getEvidence (addEvidence [("obj-1", sampleCompleted)] sampleUntagged)
      sampleUntagged.id = some sampleUntagged ∧
    getEvidence (deleteEvidence [("obj-1", sampleCompleted)] "obj-1") "obj-1" = none :=
  claim9_put_get_delete_roundtrip [("obj-1", sampleCompleted)] sampleUntagged "obj-1"
    (by decide)

/-! ### Query/Filter Engine (`filterEvidence` in lib/evidence-store.ts) -/

/-- `FilterState.sortBy`. -/
inductive SortBy where
  | date
  | relevance
  | name
deriving DecidableEq, Repr

/-- `FilterState.sortOrder`. -/
inductive SortOrder where
  | asc
  | desc
deriving DecidableEq, Repr

/-- `FilterState` from lib/types.ts (`dateStart`/`dateEnd` flatten the
nested `dateRange` object). -/
structure FilterState where
  categories : List String
  tags : List String
  dateStart : Option String
  dateEnd : Option String
  searchQuery : String
  sortBy : SortBy
  sortOrder : SortOrder
deriving DecidableEq, Repr

/-- `item.dateDetected || item.createdAt`. -/
def itemDate (it : EvidenceItem) : String := jsOrStr it.dateDetected it.createdAt

/-- The free-text predicate of `filterEvidence` (the query argument is
already lowercased by the caller). -/
def filterTextMatch (query : String) (it : EvidenceItem) : Bool :=
  jsIncludes (jsToLower it.filename) query ||
  optIncludesLower it.summary query ||
  optIncludesLower it.extractedText query ||
  it.tags.any (fun tag => jsIncludes (jsToLower tag) query)

/-- The sort comparator of `filterEvidence`, as the "`a` sorts no later
than `b`" relation (JS `sort` keeps `a` before `b` when the comparator
value is non-positive; `desc` negates the comparison). -/
def cmpLe (f : FilterState) (a b : EvidenceItem) : Bool :=
  match f.sortOrder with
  | .asc =>
      match f.sortBy with
      | .date => jsStrLe (itemDate a) (itemDate b)
      | .relevance => decide (a.relevanceScore ≤ b.relevanceScore)
      | .name => jsStrLe a.filename b.filename
  | .desc =>
      match f.sortBy with
      | .date => jsStrLe (itemDate b) (itemDate a)
      | .relevance => decide (b.relevanceScore ≤ a.relevanceScore)
      | .name => jsStrLe b.filename a.filename

/-- `if (filters.categories.length > 0) items.filter(...)`. -/
def applyCategoryFilter (f : FilterState) (items : List EvidenceItem) :
    List EvidenceItem :=
  if 0 < f.categories.length then
    items.filter (fun it => f.categories.contains it.category)
  else items

/-- `if (filters.tags.length > 0) items.filter(...)`. -/
def applyTagFilter (f : FilterState) (items : List EvidenceItem) :
    List EvidenceItem :=
  if 0 < f.tags.length then
    items.filter (fun it => f.tags.any (fun tag => it.tags.contains tag))
  else items

/-- `if (filters.dateRange.start) items.filter(itemDate >= start)`. -/
def applyDateStartFilter (f : FilterState) (items : List EvidenceItem) :
    List EvidenceItem :=
  if jsTruthy f.dateStart then
    items.filter (fun it => jsStrLe (f.dateStart.getD "") (itemDate it))
  else items

/-- `if (filters.dateRange.end) items.filter(itemDate <= end)`. -/
def applyDateEndFilter (f : FilterState) (items : List EvidenceItem) :
    List EvidenceItem :=
  if jsTruthy f.dateEnd then
    items.filter (fun it => jsStrLe (itemDate it) (f.dateEnd.getD ""))
  else items

/-- `if (filters.searchQuery) items.filter(...)`. -/
def applyTextFilter (f : FilterState) (items : List EvidenceItem) :
    List EvidenceItem :=
  if f.searchQuery ≠ "" then
    items.filter (filterTextMatch (jsToLower f.searchQuery))
  else items

/-- `filterEvidence`: the four filter dimensions in source order, then the
comparator sort. -/
def filterEvidence (items : List EvidenceItem) (f : FilterState) :
    List EvidenceItem :=
  (applyTextFilter f (applyDateEndFilter f (applyDateStartFilter f
    (applyTagFilter f (applyCategoryFilter f items))))).mergeSort (cmpLe f)

theorem mem_applyCategoryFilter (f : FilterState) (items : List EvidenceItem)
    (p : EvidenceItem) :
    p ∈ applyCategoryFilter f items ↔
      p ∈ items ∧ (f.categories = [] ∨ p.category ∈ f.categories) := by
  unfold applyCategoryFilter
  cases hc : f.categories with
  | nil => simp
  | cons a l =>
      rw [if_pos (by simp)]
      simp [List.mem_filter]

theorem mem_applyTagFilter (f : FilterState) (items : List EvidenceItem)
    (p : EvidenceItem) :
    p ∈ applyTagFilter f items ↔
      p ∈ items ∧ (f.tags = [] ∨ ∃ t ∈ f.tags, t ∈ p.tags) := by
  unfold applyTagFilter
  cases hc : f.tags with
  | nil => simp
  | cons a l =>
      rw [if_pos (by simp)]
      simp [List.mem_filter]

theorem mem_applyDateStartFilter (f : FilterState) (items : List EvidenceItem)
    (p : EvidenceItem) :
    p ∈ applyDateStartFilter f items ↔
      p ∈ items ∧ (jsTruthy f.dateStart = true →
        jsStrLe (f.dateStart.getD "") (itemDate p) = true) := by
  unfold applyDateStartFilter
  cases hc : jsTruthy f.dateStart with
  | false => simp
  | true => simp [List.mem_filter]

theorem mem_applyDateEndFilter (f : FilterState) (items : List EvidenceItem)
    (p : EvidenceItem) :
    p ∈ applyDateEndFilter f items ↔
      p ∈ items ∧ (jsTruthy f.dateEnd = true →
        jsStrLe (itemDate p) (f.dateEnd.getD "") = true) := by
  unfold applyDateEndFilter
  cases hc : jsTruthy f.dateEnd with
  | false => simp
  | true => simp [List.mem_filter]

theorem mem_applyTextFilter (f : FilterState) (items : List EvidenceItem)
    (p : EvidenceItem) :
    p ∈ applyTextFilter f items ↔
      p ∈ items ∧ (f.searchQuery ≠ "" →
        filterTextMatch (jsToLower f.searchQuery) p = true) := by
  unfold applyTextFilter
  by_cases hc : f.searchQuery = ""
  · simp [hc]
  · rw [if_pos hc]
    simp [List.mem_filter, hc]

/-- C6: the filter engine returns exactly the records that pass the
category filter AND the tag filter AND the date-range filter AND the
free-text filter; a record passes the category filter iff the category set
is empty or contains its category, and the tag filter iff the tag set is
empty or some listed tag is on the record. -/
theorem claim6_filter_conjunctive_across_disjunctive_within
    (items : List EvidenceItem) (f : FilterState) (p : EvidenceItem) :
    p ∈ filterEvidence items f ↔
      p ∈ items
      ∧ (f.categories = [] ∨ p.category ∈ f.categories)
      ∧ (f.tags = [] ∨ ∃ t ∈ f.tags, t ∈ p.tags)
      ∧ (jsTruthy f.dateStart = true →
          jsStrLe (f.dateStart.getD "") (itemDate p) = true)
      ∧ (jsTruthy f.dateEnd = true →
          jsStrLe (itemDate p) (f.dateEnd.getD "") = true)
      ∧ (f.searchQuery ≠ "" →
          filterTextMatch (jsToLower f.searchQuery) p = true) := by
  unfold filterEvidence
  rw [(List.mergeSort_perm _ (cmpLe f)).mem_iff]
  rw [mem_applyTextFilter, mem_applyDateEndFilter, mem_applyDateStartFilter,
    mem_applyTagFilter, mem_applyCategoryFilter]
  tauto

/-! ### Search route (app/api/vaults/[vaultId]/search/route.ts) -/

/-- One chunk of the remote search response (`object_id`/`objectId` may
come in either casing). -/
structure SearchChunk where
  object_id : Option String := none
  objectId : Option String := none
  hybridScore : Option ℚ := none
deriving DecidableEq, Repr

/-- `chunk.object_id || chunk.objectId || ''`. -/
def chunkObjectId (c : SearchChunk) : String :=
  jsOrStr (jsOrOpt c.object_id c.objectId) ""

/-- `chunk.hybridScore || 0`. -/
def chunkScore (c : SearchChunk) : ℚ := jsOrQ c.hybridScore 0

/-- The per-object maximum-score map built from the chunks. -/
def buildScoreMap (chunks : List SearchChunk) : List (String × ℚ) :=
  chunks.foldl
    (fun m c =>
      if jsOrQ (jmGet m (chunkObjectId c)) 0 < chunkScore c then
        jmSet m (chunkObjectId c) (chunkScore c)
      else m)
    []

/-- An evidence record decorated with its search score
(`{ ...e, searchRelevance }`). -/
structure RankedEvidence where
  item : EvidenceItem
  searchRelevance : ℚ
deriving DecidableEq, Repr

/-- Descending order on `searchRelevance`
(`(a, b) => b.searchRelevance - a.searchRelevance`). -/
def rankLe (a b : RankedEvidence) : Bool :=
  decide (b.searchRelevance ≤ a.searchRelevance)

/-- JS `Math.round` on a rational. -/
def qRound (q : ℚ) : ℤ := ⌊q + 1/2⌋

/-- The semantic branch: keep records with a scored object id, scale the
score to 0–100, sort descending. -/
def semanticRank (items : List EvidenceItem) (chunks : List SearchChunk) :
    List RankedEvidence :=
  ((items.filter (fun e => (jmGet (buildScoreMap chunks) e.objectId).isSome)).map
    (fun e =>
      { item := e
        searchRelevance :=
          ((qRound ((jsOrQ (jmGet (buildScoreMap chunks) e.objectId) 0) * 100)) : ℚ) })).mergeSort
    rankLe

/-- The local fallback's match predicate (query already lowercased). -/
def localMatch (queryLower : String) (e : EvidenceItem) : Bool :=
  jsIncludes (jsToLower e.filename) queryLower ||
  optIncludesLower e.summary queryLower ||
  optIncludesLower e.extractedText queryLower ||
  e.tags.any (fun tag => jsIncludes (jsToLower tag) queryLower) ||
  jsIncludes (jsToLower e.category) queryLower

/-- The local fallback's heuristic score: base 30, +30 for a filename
match, +20 for a summary match, +15 for any tag match. -/
def localScore (queryLower : String) (e : EvidenceItem) : ℚ :=
  30 + (if jsIncludes (jsToLower e.filename) queryLower then 30 else 0)
     + (if optIncludesLower e.summary queryLower then 20 else 0)
     + (if e.tags.any (fun tag => jsIncludes (jsToLower tag) queryLower) then 15 else 0)

/-- The local fallback: substring-match, score capped at 100, sort
descending. -/
def localFallback (items : List EvidenceItem) (query : String) :
    List RankedEvidence :=
  ((items.filter (localMatch (jsToLower query))).map
    (fun e =>
      { item := e
        searchRelevance := min (localScore (jsToLower query) e) 100 })).mergeSort
    rankLe

/-- The search route's outcome (the `evidence` list of the 200 response). -/
inductive SearchResp where
  | badRequest
  | ok (evidence : List RankedEvidence)
deriving DecidableEq, Repr

/-- `POST /vaults/{cid}/search`: remote semantic search first (`remote =
none` models the call throwing), local fallback when it produced no ranked
records. -/
def searchHandler (items : List EvidenceItem) (query : String)
    (remote : Option (List SearchChunk)) : SearchResp :=
  if query = "" then .badRequest
  else
    let sem :=
      match remote with
      | some chunks => if 0 < chunks.length then semanticRank items chunks else []
      | none => []
    if sem.length = 0 then .ok (localFallback items query) else .ok sem

theorem rankLe_trans (a b c : RankedEvidence) :
    rankLe a b → rankLe b c → rankLe a c := by
  simp only [rankLe, decide_eq_true_eq]
  exact fun h1 h2 => le_trans h2 h1

theorem rankLe_total (a b : RankedEvidence) : rankLe a b || rankLe b a := by
  simp only [rankLe, Bool.or_eq_true, decide_eq_true_eq]
  exact le_total b.searchRelevance a.searchRelevance

theorem localFallback_mem (items : List EvidenceItem) (query : String)
    (r : RankedEvidence) :
    r ∈ localFallback items query ↔
      ∃ e, e ∈ items ∧ localMatch (jsToLower query) e = true ∧
        r = { item := e, searchRelevance := min (localScore (jsToLower query) e) 100 } := by
  unfold localFallback
  rw [(List.mergeSort_perm _ rankLe).mem_iff]
  simp only [List.mem_map, List.mem_filter]
  constructor
  · rintro ⟨e, ⟨he, hm⟩, hr⟩
    exact ⟨e, he, hm, hr.symm⟩
  · rintro ⟨e, he, hm, hr⟩
    exact ⟨e, ⟨he, hm⟩, hr.symm⟩

theorem localFallback_pairwise (items : List EvidenceItem) (query : String) :
    (localFallback items query).Pairwise
      (fun a b => b.searchRelevance ≤ a.searchRelevance) := by
  unfold localFallback
  have hp := List.sorted_mergeSort rankLe_trans rankLe_total
    ((items.filter (localMatch (jsToLower query))).map
      (fun e =>
        { item := e
          searchRelevance := min (localScore (jsToLower query) e) 100 }))
  exact hp.imp (by intro a b h; simpa [rankLe] using h)

/-- A record matching the query only in its filename (among the scored
dimensions: filename, summary, tags). -/
def fnOnlyMatch (queryLower : String) (e : EvidenceItem) : Prop :=
  jsIncludes (jsToLower e.filename) queryLower = true ∧
  optIncludesLower e.summary queryLower = false ∧
  e.tags.any (fun tag => jsIncludes (jsToLower tag) queryLower) = false

/-- A record matching the query only in a tag (among the scored
dimensions). -/
def tagOnlyMatch (queryLower : String) (e : EvidenceItem) : Prop :=
  jsIncludes (jsToLower e.filename) queryLower = false ∧
  optIncludesLower e.summary queryLower = false ∧
  e.tags.any (fun tag => jsIncludes (jsToLower tag) queryLower) = true

/-- C7: when the remote semantic index yields no results (failure or an
empty chunk list), the search falls back to local substring matching; each
match is scored base 30, +30 for a filename match, +20 for a summary
match, +15 for any tag match, capped at 100; the result is sorted
descending by that score, so a filename-only match (score 60) is ranked
strictly above a tag-only match (score 45). -/
theorem claim7_local_fallback_heuristic (items : List EvidenceItem) (query : String)
    (remote : Option (List SearchChunk))
    (hq : query ≠ "") (hr : remote = none ∨ remote = some []) :
    searchHandler items query remote = .ok (localFallback items query)
    ∧ (∀ r, r ∈ localFallback items query ↔
        ∃ e, e ∈ items ∧ localMatch (jsToLower query) e = true ∧
          r = { item := e
                searchRelevance := min (localScore (jsToLower query) e) 100 })
    ∧ (localFallback items query).Pairwise
        (fun a b => b.searchRelevance ≤ a.searchRelevance)
    ∧ (∀ r ∈ localFallback items query, r.searchRelevance ≤ 100)
    ∧ (∀ e, fnOnlyMatch (jsToLower query) e → localScore (jsToLower query) e = 60)
    ∧ (∀ e, tagOnlyMatch (jsToLower query) e → localScore (jsToLower query) e = 45)
    ∧ (∀ (i j : Fin (localFallback items query).length),
        fnOnlyMatch (jsToLower query) (((localFallback items query).get i).item) →
        tagOnlyMatch (jsToLower query) (((localFallback items query).get j).item) →
        i.val < j.val) := by
  have hscore_fn : ∀ e, fnOnlyMatch (jsToLower query) e →
      localScore (jsToLower query) e = 60 := by
    intro e h
    obtain ⟨h1, h2, h3⟩ := h
    unfold localScore
    rw [if_pos h1, if_neg (by simp [h2]), if_neg (by simp [h3])]
    norm_num
  have hscore_tag : ∀ e, tagOnlyMatch (jsToLower query) e →
      localScore (jsToLower query) e = 45 := by
    intro e h
    obtain ⟨h1, h2, h3⟩ := h
    unfold localScore
    rw [if_neg (by simp [h1]), if_neg (by simp [h2]), if_pos h3]
    norm_num
  have hmem := localFallback_mem items query
  have hpw := localFallback_pairwise items query
  have hsr : ∀ r ∈ localFallback items query,
      r.searchRelevance = min (localScore (jsToLower query) r.item) 100 := by
    intro r hrm
    obtain ⟨e, -, -, hre⟩ := (hmem r).mp hrm
    rw [hre]
  refine ⟨?_, hmem, hpw, ?_, hscore_fn, hscore_tag, ?_⟩
  · unfold searchHandler
    rw [if_neg hq]
    rcases hr with h | h <;> subst h <;> rfl
  · intro r hrm
    rw [hsr r hrm]
    exact min_le_right _ _
  · intro i j hfn htag
    have hmi : (localFallback items query).get i ∈ localFallback items query :=
      List.get_mem (localFallback items query) i.val i.isLt
    have hmj : (localFallback items query).get j ∈ localFallback items query :=
      List.get_mem (localFallback items query) j.val j.isLt
    have hsi : ((localFallback items query).get i).searchRelevance = 60 := by
      rw [hsr _ hmi, hscore_fn _ hfn]
      exact min_eq_left (by norm_num)
    have hsj : ((localFallback items query).get j).searchRelevance = 45 := by
      rw [hsr _ hmj, hscore_tag _ htag]
      exact min_eq_left (by norm_num)
    rcases Nat.lt_trichotomy i.val j.val with h | h | h
    · exact h
    · exfalso
      have hij : i = j := Fin.ext h
      rw [hij] at hfn
      exact Bool.false_ne_true (htag.1 ▸ hfn.1)
    · exfalso
      have hp := List.pairwise_iff_getElem.mp hpw j.val i.val j.isLt i.isLt h
      rw [List.get_eq_getElem] at hsi hsj
      rw [hsi, hsj] at hp
      norm_num at hp

/-- A record matching "invoice" only in its filename. -/
def sampleInvoiceFile : EvidenceItem :=
  { id := "f1"
    objectId := "f1"
    filename := "invoice_2024.pdf"
    contentType := "application/pdf"
    sizeBytes := 1
    category := "other"
    tags := ["billing"]
    relevanceScore := 10
    extractedText := none
    summary := none
    dateDetected := none
    ingestionStatus := "completed"
    createdAt := "2024-01-05T00:00:00.000Z" }

/-- A record matching "invoice" only in a tag. -/
def sampleInvoiceTag : EvidenceItem :=
  { id := "t1"
    objectId := "t1"
    filename := "doc_17.pdf"
    contentType := "application/pdf"
    sizeBytes := 1
    category := "other"
    tags := ["invoice records"]
    relevanceScore := 90
    extractedText := none
    summary := none
    dateDetected := none
    ingestionStatus := "completed"
    createdAt := "2024-01-06T00:00:00.000Z" }

/-- Witness for C7 at a concrete input: remote search fails, the local
fallback ranks the filename match above the tag-only match. -/
theorem claim7_local_fallback_heuristic_witness :
    searchHandler [sampleInvoiceTag, sampleInvoiceFile] "invoice" none
      = .ok (localFallback [sampleInvoiceTag, sampleInvoiceFile] "invoice")
    ∧ (∀ (i j : Fin (localFallback [sampleInvoiceTag, sampleInvoiceFile]
        "invoice").length),
        fnOnlyMatch (jsToLower "invoice")
          (((localFallback [sampleInvoiceTag, sampleInvoiceFile] "invoice").get i).item) →
        tagOnlyMatch (jsToLower "invoice")
          (((localFallback [sampleInvoiceTag, sampleInvoiceFile] "invoice").get j).item) →
        i.val < j.val) := by
  have h := claim7_local_fallback_heuristic [sampleInvoiceTag, sampleInvoiceFile]
    "invoice" none (by decide) (Or.inl rfl)
  exact ⟨h.1, h.2.2.2.2.2.2⟩

/-- C10 (implicit): in the local fallback, a record whose category name
contains the query case-insensitively is returned even when filename,
summary, extracted text and tags all miss; such a category-only match gets
exactly the base score 30 (there is no bonus term for category). -/
theorem claim10_category_only_match (items : List EvidenceItem) (query : String)
    (e : EvidenceItem)
    (he : e ∈ items)
    (hcat : jsIncludes (jsToLower e.category) (jsToLower query) = true)
    (hfn : jsIncludes (jsToLower e.filename) (jsToLower query) = false)
    (hsum : optIncludesLower e.summary (jsToLower query) = false)
    (htxt : optIncludesLower e.extractedText (jsToLower query) = false)
    (htag : e.tags.any (fun tag => jsIncludes (jsToLower tag) (jsToLower query))
      = false) :
    ({ item := e, searchRelevance := 30 } : RankedEvidence)
      ∈ localFallback items query
    ∧ localScore (jsToLower query) e = 30 := by
  have hscore : localScore (jsToLower query) e = 30 := by
    unfold localScore
    rw [if_neg (by simp [hfn]), if_neg (by simp [hsum]), if_neg (by simp [htag])]
    norm_num
  have hm : localMatch (jsToLower query) e = true := by
    unfold localMatch
    rw [hfn, hsum, htxt, htag, hcat]
    rfl
  refine ⟨?_, hscore⟩
  rw [localFallback_mem]
  refine ⟨e, he, hm, ?_⟩
  rw [hscore]
  norm_num

/-- A record in category `medical_record` matching the query "medical"
nowhere else. -/
def sampleMedical : EvidenceItem :=
  { id := "m1"
    objectId := "m1"
    filename := "scan_0042.pdf"
    contentType := "application/pdf"
    sizeBytes := 1
    category := "medical_record"
    tags := []
    relevanceScore := 10
    extractedText := none
    summary := none
    dateDetected := none
    ingestionStatus := "completed"
    createdAt := "2024-03-01T00:00:00.000Z" }

/-- Witness for C10 at a concrete input. -/
theorem claim10_category_only_match_witness :
    ({ item := sampleMedical, searchRelevance := 30 } : RankedEvidence)
      ∈ localFallback [sampleMedical] "medical"
    ∧ localScore (jsToLower "medical") sampleMedical = 30 :=
  claim10_category_only_match [sampleMedical] "medical" sampleMedical
    (by decide) (by decide) (by decide) (by decide) (by decide) (by decide)

end EvidenceTriage
